import Mathlib

/-!
Verification of the prompt-assembler core (crates/prompt-assembler/src/lib.rs)
against its natural-language specification.

The embedding is shallow: Rust strings become Lean `String`/`List Char`,
the filesystem and the external TOML parser become explicit inputs, machine
integers become `Nat` with explicit bounds where overflow matters, and
fallible code returns `Except`.
-/

deriving instance DecidableEq for Except

namespace PA

/-- The opening brace character, written numerically. -/
def lbrace : Char := Char.ofNat 123

/-- The closing brace character, written numerically. -/
def rbrace : Char := Char.ofNat 125

/-- The line-feed character. -/
def nl : Char := Char.ofNat 10

/-- Largest value of Rust `usize` on the 64-bit targets this crate is built
for; `str::parse::<usize>` fails on digit runs denoting anything larger. -/
def usizeMax : Nat := 2 ^ 64 - 1

/-- Errors of `substitute_placeholders`.  The Rust function returns
`anyhow::Error` values built from format strings; each constructor records
one of those messages together with the data interpolated into it. -/
inductive SubstError where
  /-- "empty placeholder braces are not allowed" -/
  | emptyPlaceholder : SubstError
  /-- "invalid placeholder index (digits)" — `parse::<usize>` failure. -/
  | invalidIndex (digits : String) : SubstError
  /-- "unterminated placeholder (digits)" — no closing brace after digits. -/
  | unterminated (digits : String) : SubstError
  /-- "positional placeholders support up to 9 arguments" -/
  | indexTooLarge : SubstError
  /-- "missing argument for placeholder (index)" -/
  | missingArg (index : Nat) : SubstError
  /-- "unmatched closing brace" -/
  | unmatchedClose : SubstError
  /-- "unterminated placeholder at end of template" -/
  | unterminatedAtEnd : SubstError
deriving DecidableEq

/-- Value of an ASCII digit run, most significant digit first; this is what
`digits.parse::<usize>()` computes on a run of ASCII digits. -/
def digitsToNat (ds : List Char) : Nat :=
  ds.foldl (fun n c => 10 * n + (c.toNat - 48)) 0

/-- Split a leading run of ASCII digits from the rest, as the
`while let Some(peek) = chars.peek()` loop of `substitute_placeholders` does. -/
def takeDigits : List Char → List Char × List Char
  | [] => ([], [])
  | c :: cs =>
    if c.isDigit then
      let p := takeDigits cs
      (c :: p.1, p.2)
    else ([], c :: cs)

theorem takeDigits_snd_length : ∀ cs : List Char, (takeDigits cs).2.length ≤ cs.length := by
  intro cs
  induction cs with
  | nil => simp [takeDigits]
  | cons c cs ih =>
    by_cases h : c.isDigit <;> simp [takeDigits, h]
    omega

theorem takeDigits_fst_append (ds rest : List Char) (hds : ∀ c ∈ ds, c.isDigit)
    (hr : ∀ c, rest.head? = some c → ¬ c.isDigit) :
    takeDigits (ds ++ rest) = (ds, rest) := by
  induction ds with
  | nil =>
    cases rest with
    | nil => rfl
    | cons r rs =>
      have := hr r rfl
      simp [takeDigits, this]
  | cons d ds ih =>
    have hd : d.isDigit := hds d (by simp)
    have : takeDigits (ds ++ rest) = (ds, rest) := ih (fun c hc => hds c (by simp [hc]))
    simp [takeDigits, hd, this]

/-- The character scan of `substitute_placeholders`, with explicit fuel so the
recursion is structural; the fuel only needs to cover the input length, as one
character at least is consumed per step. -/
def substGo (args : List String) : Nat → List Char → Except SubstError (List Char)
  | _, [] => .ok []
  | 0, _ :: _ => .error .unterminatedAtEnd
  | fuel + 1, c :: cs =>
    if c = lbrace then
      match cs with
      | [] => .error .unterminatedAtEnd
      | c2 :: cs2 =>
        if c2 = lbrace then
          (substGo args fuel cs2).map fun r => lbrace :: r
        else
          match takeDigits (c2 :: cs2) with
          | (ds, rest0) =>
            if ds = [] then .error .emptyPlaceholder
            else if usizeMax < digitsToNat ds then .error (.invalidIndex (String.mk ds))
            else
              match rest0 with
              | [] => .error (.unterminated (String.mk ds))
              | d :: rest =>
                if d = rbrace then
                  if 9 < digitsToNat ds then .error .indexTooLarge
                  else
                    match args[digitsToNat ds]? with
                    | some v => (substGo args fuel rest).map fun r => v.data ++ r
                    | none => .error (.missingArg (digitsToNat ds))
                else .error (.unterminated (String.mk ds))
    else if c = rbrace then
      match cs with
      | [] => .error .unmatchedClose
      | c2 :: cs2 =>
        if c2 = rbrace then
          (substGo args fuel cs2).map fun r => rbrace :: r
        else .error .unmatchedClose
    else
      (substGo args fuel cs).map fun r => c :: r

/-- `substitute_placeholders(template, args)`: expand `(N)` positional
references and doubled-brace escapes in `template` against `args`. -/
def substitute_placeholders (template : String) (args : List String) :
    Except SubstError String :=
  (substGo args template.data.length template.data).map fun out => String.mk out

/-- A character list mentioning no brace at all. -/
def braceFree (l : List Char) : Bool :=
  l.all fun c => !(c = lbrace || c = rbrace)

theorem substGo_irrel (args : List String) :
    ∀ f1 f2 l, l.length ≤ f1 → l.length ≤ f2 →
      substGo args f1 l = substGo args f2 l := by
  intro f1
  induction f1 with
  | zero =>
    intro f2 l h1 _
    have hl : l = [] := by cases l <;> simp_all
    subst hl
    cases f2 <;> rfl
  | succ a ih =>
    intro f2 l h1 h2
    cases l with
    | nil => cases f2 <;> rfl
    | cons c cs =>
      cases f2 with
      | zero => simp at h2
      | succ b =>
        have hcs1 : cs.length ≤ a := by simpa using h1
        have hcs2 : cs.length ≤ b := by simpa using h2
        simp only [substGo]
        by_cases hc : c = lbrace
        · rw [if_pos hc, if_pos hc]
          cases cs with
          | nil => rfl
          | cons c2 cs2 =>
            dsimp only
            have hcs2a : cs2.length ≤ a := by simp at hcs1; omega
            have hcs2b : cs2.length ≤ b := by simp at hcs2; omega
            by_cases h2l : c2 = lbrace
            · rw [if_pos h2l, if_pos h2l, ih b cs2 hcs2a hcs2b]
            · rw [if_neg h2l, if_neg h2l]
              rcases htd : takeDigits (c2 :: cs2) with ⟨ds, r0⟩
              have hr0 : r0.length ≤ cs2.length + 1 := by
                have := takeDigits_snd_length (c2 :: cs2)
                rw [htd] at this
                simpa using this
              by_cases hds : ds = []
              · simp [hds]
              · rw [if_neg hds, if_neg hds]
                by_cases hbig : usizeMax < digitsToNat ds
                · rw [if_pos hbig, if_pos hbig]
                · rw [if_neg hbig, if_neg hbig]
                  cases r0 with
                  | nil => rfl
                  | cons d rest =>
                    dsimp only
                    have hresta : rest.length ≤ a := by simp at hr0 hcs1; omega
                    have hrestb : rest.length ≤ b := by simp at hr0 hcs2; omega
                    by_cases hdr : d = rbrace
                    · rw [if_pos hdr, if_pos hdr]
                      by_cases h9 : 9 < digitsToNat ds
                      · rw [if_pos h9, if_pos h9]
                      · rw [if_neg h9, if_neg h9]
                        cases harg : args[digitsToNat ds]? with
                        | some v => rw [ih b rest hresta hrestb]
                        | none => rfl
                    · rw [if_neg hdr, if_neg hdr]
        · rw [if_neg hc, if_neg hc]
          by_cases hcr : c = rbrace
          · rw [if_pos hcr, if_pos hcr]
            cases cs with
            | nil => rfl
            | cons c2 cs2 =>
              dsimp only
              have hcs2a : cs2.length ≤ a := by simp at hcs1; omega
              have hcs2b : cs2.length ≤ b := by simp at hcs2; omega
              by_cases h2r : c2 = rbrace
              · rw [if_pos h2r, if_pos h2r, ih b cs2 hcs2a hcs2b]
              · rw [if_neg h2r, if_neg h2r]
          · rw [if_neg hcr, if_neg hcr, ih b cs hcs1 hcs2]

theorem substGo_cons_other (args : List String) (f : Nat) (c : Char) (l : List Char)
    (h1 : ¬ c = lbrace) (h2 : ¬ c = rbrace) :
    substGo args (f + 1) (c :: l) = (substGo args f l).map fun r => c :: r := by
  simp [substGo, h1, h2]

theorem substGo_braceFree_append (args : List String) :
    ∀ p t f, braceFree p = true → (p ++ t).length ≤ f →
      substGo args f (p ++ t) = (substGo args t.length t).map fun r => p ++ r := by
  intro p
  induction p with
  | nil =>
    intro t f _ hf
    have := substGo_irrel args f t.length t (by simpa using hf) le_rfl
    rw [List.nil_append, this]
    cases substGo args t.length t <;> rfl
  | cons c p ih =>
    intro t f hb hf
    have hc : ¬ c = lbrace ∧ ¬ c = rbrace := by
      have := hb
      simp [braceFree] at this
      exact ⟨this.1.1, this.1.2⟩
    have hbp : braceFree p = true := by
      simp [braceFree] at hb ⊢
      exact hb.2
    cases f with
    | zero => simp at hf
    | succ f =>
      rw [List.cons_append, substGo_cons_other args f c (p ++ t) hc.1 hc.2,
        ih t f hbp (by simp at hf ⊢; omega)]
      cases substGo args t.length t <;> rfl

theorem substGo_braceFree_id (args : List String) (f : Nat) (l : List Char)
    (hb : braceFree l = true) (hf : l.length ≤ f) :
    substGo args f l = .ok l := by
  have := substGo_braceFree_append args l [] f hb (by simpa using hf)
  simpa [substGo, Except.map] using this

theorem substGo_open_escape (args : List String) (f : Nat) (t : List Char) :
    substGo args (f + 1) (lbrace :: lbrace :: t) =
      (substGo args f t).map fun r => lbrace :: r := by
  simp [substGo]

theorem substGo_close_escape (args : List String) (f : Nat) (t : List Char) :
    substGo args (f + 1) (rbrace :: rbrace :: t) =
      (substGo args f t).map fun r => rbrace :: r := by
  have h : ¬ rbrace = lbrace := by decide
  simp [substGo, h]

theorem isDigit_ne_lbrace {c : Char} (h : c.isDigit = true) : ¬ c = lbrace := by
  intro heq
  rw [heq] at h
  exact absurd h (by decide)

theorem substGo_placeholder (args : List String) (f : Nat) (ds rest : List Char)
    (hne : ds ≠ []) (hd : ∀ c ∈ ds, c.isDigit) :
    substGo args (f + 1) (lbrace :: (ds ++ rbrace :: rest)) =
      if usizeMax < digitsToNat ds then .error (.invalidIndex (String.mk ds))
      else if 9 < digitsToNat ds then .error .indexTooLarge
      else
        match args[digitsToNat ds]? with
        | some v => (substGo args f rest).map fun r => v.data ++ r
        | none => .error (.missingArg (digitsToNat ds)) := by
  cases ds with
  | nil => exact absurd rfl hne
  | cons d0 ds0 =>
    have h0 : d0.isDigit := hd d0 (by simp)
    have h0l : ¬ d0 = lbrace := isDigit_ne_lbrace h0
    have htd : takeDigits ((d0 :: ds0) ++ rbrace :: rest) = (d0 :: ds0, rbrace :: rest) := by
      refine takeDigits_fst_append _ _ hd ?_
      intro c hc
      simp at hc
      subst hc
      decide
    rw [List.cons_append] at htd
    simp only [substGo, if_pos rfl, List.cons_append, if_neg h0l, htd]
    simp

theorem subst_at_placeholder (args : List String) (p ds s : List Char)
    (hb : braceFree p = true) (hne : ds ≠ []) (hd : ∀ c ∈ ds, c.isDigit) :
    substitute_placeholders (String.mk (p ++ lbrace :: (ds ++ rbrace :: s))) args =
      if usizeMax < digitsToNat ds then .error (.invalidIndex (String.mk ds))
      else if 9 < digitsToNat ds then .error .indexTooLarge
      else
        match args[digitsToNat ds]? with
        | some v => (substitute_placeholders (String.mk s) args).map
            fun r => String.mk (p ++ (v.data ++ r.data))
        | none => .error (.missingArg (digitsToNat ds)) := by
  have h1 : substitute_placeholders (String.mk (p ++ lbrace :: (ds ++ rbrace :: s))) args
      = (substGo args (p ++ lbrace :: (ds ++ rbrace :: s)).length
          (p ++ lbrace :: (ds ++ rbrace :: s))).map String.mk := rfl
  rw [h1, substGo_braceFree_append args p _ _ hb le_rfl]
  have hlen : (lbrace :: (ds ++ rbrace :: s)).length = (ds.length + s.length + 1) + 1 := by
    simp
    omega
  rw [hlen, substGo_placeholder args _ ds s hne hd]
  by_cases hbig : usizeMax < digitsToNat ds
  · simp [hbig, Except.map]
  · rw [if_neg hbig, if_neg hbig]
    by_cases h9 : 9 < digitsToNat ds
    · simp [h9, Except.map]
    · rw [if_neg h9, if_neg h9]
      cases harg : args[digitsToNat ds]? with
      | none => simp [harg, Except.map]
      | some v =>
        simp only [harg]
        rw [substGo_irrel args (ds.length + s.length + 1) s.length s (by omega) le_rfl]
        have h2 : substitute_placeholders (String.mk s) args
            = (substGo args s.length s).map String.mk := rfl
        rw [h2]
        cases substGo args s.length s <;> simp [Except.map]

/-- C7: placeholder substitution is the identity on every input containing no
brace character (hence idempotent on such already-expanded text), and the
doubled-brace escapes always produce a single literal brace with no further
expansion applied to it. -/
theorem claim7_identity_and_escapes :
    (∀ (s : String) (args : List String), braceFree s.data = true →
        substitute_placeholders s args = .ok s)
  ∧ (∀ (s : String) (args : List String), braceFree s.data = true →
        (substitute_placeholders s args).bind
          (fun r => substitute_placeholders r args) = .ok s)
  ∧ (∀ (p s : List Char) (args : List String), braceFree p = true →
        substitute_placeholders (String.mk (p ++ lbrace :: lbrace :: s)) args =
          (substitute_placeholders (String.mk s) args).map
            fun r => String.mk (p ++ lbrace :: r.data))
  ∧ (∀ (p s : List Char) (args : List String), braceFree p = true →
        substitute_placeholders (String.mk (p ++ rbrace :: rbrace :: s)) args =
          (substitute_placeholders (String.mk s) args).map
            fun r => String.mk (p ++ rbrace :: r.data)) := by
  have hid : ∀ (s : String) (args : List String), braceFree s.data = true →
      substitute_placeholders s args = .ok s := by
    intro s args hb
    have h1 : substitute_placeholders s args
        = (substGo args s.data.length s.data).map String.mk := rfl
    rw [h1, substGo_braceFree_id args s.data.length s.data hb le_rfl]
    rfl
  refine ⟨hid, ?_, ?_, ?_⟩
  · intro s args hb
    rw [hid s args hb]
    simpa using hid s args hb
  · intro p s args hb
    have h1 : substitute_placeholders (String.mk (p ++ lbrace :: lbrace :: s)) args
        = (substGo args (p ++ lbrace :: lbrace :: s).length
            (p ++ lbrace :: lbrace :: s)).map String.mk := rfl
    rw [h1, substGo_braceFree_append args p _ _ hb le_rfl]
    have hlen : (lbrace :: lbrace :: s).length = (s.length + 1) + 1 := by simp
    rw [hlen, substGo_open_escape args (s.length + 1) s,
      substGo_irrel args (s.length + 1) s.length s (by omega) le_rfl]
    have h2 : substitute_placeholders (String.mk s) args
        = (substGo args s.length s).map String.mk := rfl
    rw [h2]
    cases substGo args s.length s <;> rfl
  · intro p s args hb
    have h1 : substitute_placeholders (String.mk (p ++ rbrace :: rbrace :: s)) args
        = (substGo args (p ++ rbrace :: rbrace :: s).length
            (p ++ rbrace :: rbrace :: s)).map String.mk := rfl
    rw [h1, substGo_braceFree_append args p _ _ hb le_rfl]
    have hlen : (rbrace :: rbrace :: s).length = (s.length + 1) + 1 := by simp
    rw [hlen, substGo_close_escape args (s.length + 1) s,
      substGo_irrel args (s.length + 1) s.length s (by omega) le_rfl]
    have h2 : substitute_placeholders (String.mk s) args
        = (substGo args s.length s).map String.mk := rfl
    rw [h2]
    cases substGo args s.length s <;> rfl

/-- C7 witness: the identity, idempotence and both escapes at concrete inputs. -/
theorem claim7_identity_and_escapes_witness :
    substitute_placeholders "plain text" ["x"] = .ok "plain text"
  ∧ (substitute_placeholders "done" []).bind
      (fun r => substitute_placeholders r []) = .ok "done"
  ∧ substitute_placeholders (String.mk ("a".data ++ lbrace :: lbrace :: "b".data)) [] =
      (substitute_placeholders (String.mk "b".data) []).map
        (fun r => String.mk ("a".data ++ lbrace :: r.data))
  ∧ substitute_placeholders (String.mk ("a".data ++ rbrace :: rbrace :: "b".data)) [] =
      (substitute_placeholders (String.mk "b".data) []).map
        (fun r => String.mk ("a".data ++ rbrace :: r.data)) :=
  ⟨claim7_identity_and_escapes.1 "plain text" ["x"] (by decide),
   claim7_identity_and_escapes.2.1 "done" [] (by decide),
   claim7_identity_and_escapes.2.2.1 "a".data "b".data [] (by decide),
   claim7_identity_and_escapes.2.2.2 "a".data "b".data [] (by decide)⟩

/-- C5 counterexample: the text contains the placeholder of index 1 and the
empty argument list has length at most 1, yet substitution reports the
missing argument at index 0 (the scan's first failing reference), not at
index 1 as the claim demands for N = 1. -/
theorem claim5_counterexample :
    substitute_placeholders "Value {0} and {1}" [] = .error (.missingArg 0)
  ∧ (Except.error (SubstError.missingArg 0) : Except SubstError String)
      ≠ .error (.missingArg 1) := by
  constructor
  · decide
  · decide

/-- C5 (amended): when the placeholder of index N is the first brace construct
of the text (brace-free leading characters) and at most N arguments are
supplied, substitution fails with the missing-argument error naming N and no
default text is substituted; in general the error names the first failing
reference met by the scan, as in the concrete example, where index 1 is
reported. -/
theorem claim5_missing_argument :
    (∀ (p ds s : List Char) (args : List String), braceFree p = true → ds ≠ [] →
        (∀ c ∈ ds, c.isDigit) → digitsToNat ds ≤ 9 → args.length ≤ digitsToNat ds →
        substitute_placeholders (String.mk (p ++ lbrace :: (ds ++ rbrace :: s))) args =
          .error (.missingArg (digitsToNat ds)))
  ∧ (∀ a : String, substitute_placeholders "Value {0} and {1}" [a] =
      .error (.missingArg 1)) := by
  have hmain : ∀ (p ds s : List Char) (args : List String), braceFree p = true → ds ≠ [] →
      (∀ c ∈ ds, c.isDigit) → digitsToNat ds ≤ 9 → args.length ≤ digitsToNat ds →
      substitute_placeholders (String.mk (p ++ lbrace :: (ds ++ rbrace :: s))) args =
        .error (.missingArg (digitsToNat ds)) := by
    intro p ds s args hb hne hd h9 hlen
    rw [subst_at_placeholder args p ds s hb hne hd]
    have hget : args[digitsToNat ds]? = none := by
      rw [List.getElem?_eq_none_iff]
      exact hlen
    rw [if_neg (by simp [usizeMax]; omega), if_neg (by omega)]
    simp [hget]
  refine ⟨hmain, ?_⟩
  intro a
  have hdata : ("Value {0} and {1}" : String).data =
      "Value ".data ++ lbrace :: (['0'] ++ rbrace ::
        (" and ".data ++ lbrace :: (['1'] ++ rbrace :: []))) := by decide
  have h1 : substitute_placeholders "Value {0} and {1}" [a]
      = substitute_placeholders (String.mk ("Value ".data ++ lbrace :: (['0'] ++ rbrace ::
          (" and ".data ++ lbrace :: (['1'] ++ rbrace :: []))))) [a] := by
    show (substGo [a] ("Value {0} and {1}" : String).data.length
        ("Value {0} and {1}" : String).data).map String.mk = _
    rw [hdata]
    rfl
  rw [h1, subst_at_placeholder [a] _ ['0'] _ (by decide) (by decide) (by decide)]
  have h0 : digitsToNat ['0'] = 0 := by decide
  rw [h0]
  rw [if_neg (by decide), if_neg (by decide)]
  have hget0 : [a][(0 : Nat)]? = some a := rfl
  simp only [hget0]
  rw [subst_at_placeholder [a] _ ['1'] _ (by decide) (by decide) (by decide)]
  have hone : digitsToNat ['1'] = 1 := by decide
  rw [hone]
  rw [if_neg (by decide), if_neg (by decide)]
  have hget1 : [a][(1 : Nat)]? = none := rfl
  simp [hget1, Except.map]

/-- C5 witness: the amended statement applied with text made of the prior
characters "x: ", the placeholder of index 2 and a tail, under a single
argument, and the concrete example with argument "x". -/
theorem claim5_missing_argument_witness :
    substitute_placeholders (String.mk ("x: ".data ++ lbrace :: (['2'] ++ rbrace :: "!".data)))
        ["only"] = .error (.missingArg 2)
  ∧ substitute_placeholders "Value {0} and {1}" ["x"] = .error (.missingArg 1) := by
  constructor
  · have h := claim5_missing_argument.1 "x: ".data ['2'] "!".data ["only"]
      (by decide) (by decide) (by decide) (by decide) (by decide)
    have h2 : digitsToNat ['2'] = 2 := by decide
    rw [h2] at h
    exact h
  · exact claim5_missing_argument.2 "x"

/-- C6 counterexample: a brace pair holding the digit run 18446744073709551616
(one more than the largest 64-bit machine integer) denotes an index above 9,
but it is rejected with the invalid-index parse failure of the digit run, not
with the dedicated error reserved for indices above 9. -/
theorem claim6_counterexample :
    substitute_placeholders "{18446744073709551616}" [] =
      .error (.invalidIndex "18446744073709551616")
  ∧ SubstError.invalidIndex "18446744073709551616" ≠ SubstError.indexTooLarge := by
  constructor
  · decide
  · decide

/-- C6 (amended): a brace pair around one or more ASCII digits is a
placeholder; a digit run denoting an index within the machine-integer range
but above 9 is rejected with the dedicated too-large error; a digit run in
range and at most 9 is parsed as a zero-based positional index and replaced
by the corresponding argument; a digit run beyond the machine-integer range
fails earlier, as an invalid-index parse error. -/
theorem claim6_placeholder_indices :
    (∀ (p ds s : List Char) (args : List String), braceFree p = true → ds ≠ [] →
        (∀ c ∈ ds, c.isDigit) → 9 < digitsToNat ds → digitsToNat ds ≤ usizeMax →
        substitute_placeholders (String.mk (p ++ lbrace :: (ds ++ rbrace :: s))) args =
          .error .indexTooLarge)
  ∧ (∀ (p ds s : List Char) (args : List String) (v : String), braceFree p = true →
        ds ≠ [] → (∀ c ∈ ds, c.isDigit) → digitsToNat ds ≤ 9 →
        args[digitsToNat ds]? = some v →
        substitute_placeholders (String.mk (p ++ lbrace :: (ds ++ rbrace :: s))) args =
          (substitute_placeholders (String.mk s) args).map
            fun r => String.mk (p ++ (v.data ++ r.data)))
  ∧ (∀ (p ds s : List Char) (args : List String), braceFree p = true → ds ≠ [] →
        (∀ c ∈ ds, c.isDigit) → usizeMax < digitsToNat ds →
        substitute_placeholders (String.mk (p ++ lbrace :: (ds ++ rbrace :: s))) args =
          .error (.invalidIndex (String.mk ds))) := by
  refine ⟨?_, ?_, ?_⟩
  · intro p ds s args hb hne hd h9 hmax
    rw [subst_at_placeholder args p ds s hb hne hd,
      if_neg (by omega), if_pos h9]
  · intro p ds s args v hb hne hd h9 hget
    rw [subst_at_placeholder args p ds s hb hne hd,
      if_neg (by simp [usizeMax]; omega), if_neg (by omega)]
    simp [hget]
  · intro p ds s args hb hne hd hmax
    rw [subst_at_placeholder args p ds s hb hne hd, if_pos hmax]

/-- C6 witness: index 10 rejected with the dedicated error, index 0 replaced
by its argument, and an out-of-machine-range digit run failing as an invalid
index, all at concrete inputs. -/
theorem claim6_placeholder_indices_witness :
    substitute_placeholders (String.mk ([] ++ lbrace :: (['1', '0'] ++ rbrace :: []))) ["a"] =
      .error .indexTooLarge
  ∧ substitute_placeholders (String.mk ([] ++ lbrace :: (['0'] ++ rbrace :: []))) ["a"] =
      (substitute_placeholders (String.mk []) ["a"]).map
        (fun r => String.mk ([] ++ ("a".data ++ r.data)))
  ∧ substitute_placeholders
        (String.mk ([] ++ lbrace :: ("18446744073709551616".data ++ rbrace :: []))) [] =
      .error (.invalidIndex (String.mk "18446744073709551616".data)) := by
  refine ⟨?_, ?_, ?_⟩
  · have h := claim6_placeholder_indices.1 [] ['1', '0'] [] ["a"]
      (by decide) (by decide) (by decide) (by decide) (by decide)
    exact h
  · have h := claim6_placeholder_indices.2.1 [] ['0'] [] ["a"] "a"
      (by decide) (by decide) (by decide) (by decide) ?_
    · have h0 : digitsToNat ['0'] = 0 := by decide
      exact h
    · decide
  · have h := claim6_placeholder_indices.2.2 [] "18446744073709551616".data [] []
      (by decide) (by decide) (by decide) (by decide)
    exact h

/-- Provenance of a prompt definition: the configuration file that defined it.
The best-effort last-modified timestamp of the Rust struct is filesystem
metadata never consulted by the load or render logic and is not modelled. -/
structure PromptSource where
  path : String
deriving DecidableEq

inductive PromptVariableKind where
  | string : PromptVariableKind
  | path : PromptVariableKind
  | number : PromptVariableKind
  | boolean : PromptVariableKind
deriving DecidableEq

structure PromptVariable where
  name : String
  required : Bool
  kind : PromptVariableKind
  description : Option String
deriving DecidableEq

inductive PromptKind where
  | sequence (files : List String) : PromptKind
  | template (tmpl : String) : PromptKind
deriving DecidableEq

structure PromptMetadata where
  description : Option String
  tags : List String
  vars : List PromptVariable
  stdinSupported : Option Bool
  source : PromptSource
deriving DecidableEq

structure PromptSpec where
  promptPathOverride : Option String
  kind : PromptKind
  metadata : PromptMetadata
deriving DecidableEq

inductive ConfigIssueCode where
  | duplicateVar : ConfigIssueCode
  | override : ConfigIssueCode
  | invalidPrompt : ConfigIssueCode
  | parseError : ConfigIssueCode
deriving DecidableEq

/-- Failure of `resolve_path`: the home directory is unavailable (or not valid
UTF-8 — both conditions are modelled as an absent home directory). -/
inductive ResolveError where
  | noHomeDir : ResolveError
deriving DecidableEq

/-- The message of a `ConfigIssue`.  The Rust code formats a string; each
constructor records one format string together with the data interpolated
into it. -/
inductive IssueMsg where
  /-- The text of an error from the external TOML parser. -/
  | parseErr (err : String) : IssueMsg
  /-- "invalid prompt_path (path): (err)" for the file-level default path. -/
  | invalidDefaultPromptPath (pathStr : String) (err : ResolveError) : IssueMsg
  /-- "prompt (name) has invalid prompt_path (path): (err)". -/
  | invalidPromptPathOverride (name pathStr : String) (err : ResolveError) : IssueMsg
  /-- "prompt sequence cannot be empty". -/
  | sequenceEmpty : IssueMsg
  /-- "prompts and template are exclusive options". -/
  | exclusiveOptions : IssueMsg
  /-- "prompt must define either prompts or template". -/
  | missingKindFields : IssueMsg
  /-- "unknown var type (kind) for prompt (name)". -/
  | unknownVarType (varKind name : String) : IssueMsg
  /-- "var (name) declared twice". -/
  | varDeclaredTwice (name : String) : IssueMsg
  /-- "prompt (name) overrides definition from (previousPath)". -/
  | overridesFrom (name previousPath : String) : IssueMsg
deriving DecidableEq

/-- One diagnostic, with the classification code, the message, the originating
file path and the optional line number of `ConfigIssue`. -/
structure ConfigIssue where
  code : ConfigIssueCode
  message : IssueMsg
  path : String
  line : Option Nat
deriving DecidableEq

/-- `RawPromptVar`, the deserialized form of one variable declaration. -/
structure RawPromptVar where
  name : String
  required : Bool
  kind : Option String
  description : Option String
deriving DecidableEq

/-- `RawPrompt`, the deserialized form of one prompt definition. -/
structure RawPrompt where
  promptPath : Option String
  prompts : Option (List String)
  template : Option String
  description : Option String
  tags : List String
  vars : List RawPromptVar
  stdinSupported : Option Bool
deriving DecidableEq

/-- `RawFile`, the deserialized form of one configuration file.  The prompt
table is an insertion-ordered map; valid TOML rejects duplicate keys, so its
key list has no duplicates in any input produced by the parser. -/
structure RawFile where
  promptPath : Option String
  prompt : List (String × RawPrompt)
deriving DecidableEq

/-- One configuration file as presented to the loader.  Reading and TOML
parsing are performed by `std::fs` and the external `toml` crate; their
outcome for each file is therefore an input of the model: a read failure
(`LoadConfigError::Io` in Rust), or the parse result of the file's text. -/
inductive FileInput where
  | ioError : FileInput
  | content (parsed : Except String RawFile) : FileInput
deriving DecidableEq

structure Config where
  root : String
  defaultPromptPath : Option String
  prompts : List (String × PromptSpec)
deriving DecidableEq

structure ConfigLoad where
  config : Config
  warnings : List ConfigIssue
deriving DecidableEq

/-- `LoadConfigError`.  The `readDir` variant exists in the Rust enum for a
failure to enumerate `conf.d` itself; enumeration is an input of this model
(the override file list), so the model never produces it. -/
inductive LoadConfigError where
  | readDir (path : String) : LoadConfigError
  | invalid (errors warnings : List ConfigIssue) : LoadConfigError
  | ioErr (path : String) : LoadConfigError
deriving DecidableEq

/-- Absolute paths in the Unix sense modelled for `Utf8Path::is_absolute`. -/
def isAbsolute (p : String) : Bool :=
  match p.data with
  | c :: _ => c = '/'
  | [] => false

/-- `Utf8Path::join`: joining an absolute path replaces the base. -/
def joinPath (base rel : String) : String :=
  if isAbsolute rel then rel else base ++ "/" ++ rel

/-- `path.strip_prefix("~/")`. -/
def stripTilde (p : String) : Option String :=
  match p.data with
  | '~' :: '/' :: rest => some (String.mk rest)
  | _ => none

/-- `resolve_path(root, path)`: substitute the home directory for a leading
tilde, keep absolute paths, anchor relative paths at the configuration root.
The home directory is an input (`BaseDirs` is read from the environment). -/
def resolve_path (home : Option String) (root : String) (path : String) :
    Except ResolveError String :=
  match stripTilde path with
  | some stripped =>
    match home with
    | some h => .ok (joinPath h stripped)
    | none => .error .noHomeDir
  | none =>
    if isAbsolute path then .ok path else .ok (root ++ "/" ++ path)

/-- `parse_var_kind`: the four recognized variable type strings. -/
def parse_var_kind (raw : String) : Option PromptVariableKind :=
  match raw with
  | "string" => some .string
  | "path" => some .path
  | "number" => some .number
  | "boolean" => some .boolean
  | _ => none

/-- The loop of `parse_prompt_vars`, with the set of names seen so far. -/
def parse_prompt_vars_go (promptName : String) (source : PromptSource)
    (seen : List String) : List RawPromptVar → Except ConfigIssue (List PromptVariable)
  | [] => .ok []
  | raw :: rest =>
    if raw.name ∈ seen then
      .error ⟨.duplicateVar, .varDeclaredTwice raw.name, source.path, none⟩
    else
      match parse_var_kind (raw.kind.getD "string") with
      | none =>
        .error ⟨.invalidPrompt, .unknownVarType (raw.kind.getD "string") promptName,
          source.path, none⟩
      | some k =>
        (parse_prompt_vars_go promptName source (raw.name :: seen) rest).map
          fun vs => ⟨raw.name, raw.required, k, raw.description⟩ :: vs

/-- `parse_prompt_vars`: validate the variable list of one prompt, stopping at
the first duplicate name or unknown type. -/
def parse_prompt_vars (promptName : String) (vars : List RawPromptVar)
    (source : PromptSource) : Except ConfigIssue (List PromptVariable) :=
  parse_prompt_vars_go promptName source [] vars

/-- `build_prompt_spec`: validate one raw prompt definition into a
`PromptSpec`, returning the single most relevant issue on failure. -/
def build_prompt_spec (home : Option String) (root : String) (promptName : String)
    (prompt : RawPrompt) (source : PromptSource) : Except ConfigIssue PromptSpec :=
  let overrideRes : Except ConfigIssue (Option String) :=
    match prompt.promptPath with
    | some p =>
      match resolve_path home root p with
      | .ok resolved => .ok (some resolved)
      | .error e =>
        .error ⟨.invalidPrompt, .invalidPromptPathOverride promptName p e,
          source.path, none⟩
    | none => .ok none
  match overrideRes with
  | .error i => .error i
  | .ok ppo =>
    let finish : PromptKind → Except ConfigIssue PromptSpec := fun kind =>
      (parse_prompt_vars promptName prompt.vars source).map fun vars =>
        ⟨ppo, kind,
          ⟨prompt.description, prompt.tags, vars, prompt.stdinSupported, source⟩⟩
    match prompt.prompts, prompt.template with
    | some files, none =>
      if files = [] then .error ⟨.invalidPrompt, .sequenceEmpty, source.path, none⟩
      else finish (.sequence files)
    | none, some t => finish (.template t)
    | some _, some _ => .error ⟨.invalidPrompt, .exclusiveOptions, source.path, none⟩
    | none, none => .error ⟨.invalidPrompt, .missingKindFields, source.path, none⟩

/-- Lookup in an insertion-ordered association list (`IndexMap::get`). -/
def lookupName {α : Type} : List (String × α) → String → Option α
  | [], _ => none
  | (k, v) :: rest, n => if k = n then some v else lookupName rest n

/-- `IndexMap::insert`: replace in place when the key exists (returning the
previous value), append otherwise. -/
def indexInsert {α : Type} : List (String × α) → String → α → Option α × List (String × α)
  | [], k, v => (none, [(k, v)])
  | (k0, v0) :: rest, k, v =>
    if k0 = k then (some v0, (k0, v) :: rest)
    else
      let p := indexInsert rest k v
      (p.1, (k0, v0) :: p.2)

/-- The mutable state threaded through `load_config`. -/
structure LoadState where
  prompts : List (String × PromptSpec)
  defaultPromptPath : Option String
  warnings : List ConfigIssue
  errors : List ConfigIssue
deriving DecidableEq

/-- The `for (name, prompt) in raw.prompt` loop of `process_config_file`:
build each spec, insert it (emitting an override warning when a prior entry
with the same name existed), or collect the build issue as an error. -/
def insertPromptDefs (home : Option String) (root : String) (source : PromptSource) :
    List (String × RawPrompt) → LoadState → LoadState
  | [], st => st
  | (name, prompt) :: rest, st =>
    match build_prompt_spec home root name prompt source with
    | .ok spec =>
      let p := indexInsert st.prompts name spec
      match p.1 with
      | some previous =>
        insertPromptDefs home root source rest
          { st with
            prompts := p.2,
            warnings := st.warnings ++
              [⟨.override, .overridesFrom name previous.metadata.source.path,
                source.path, none⟩] }
      | none => insertPromptDefs home root source rest { st with prompts := p.2 }
    | .error issue =>
      insertPromptDefs home root source rest { st with errors := st.errors ++ [issue] }

/-- `process_config_file`: a read failure aborts the load; a parse failure is
collected as a `parse_error` and the file skipped; a failing file-level
`prompt_path` is collected as an `invalid_prompt` and the file's prompts are
skipped; otherwise the default prompt path is updated when declared and the
file's prompts are folded into the registry. -/
def process_config_file (home : Option String) (root : String) (path : String)
    (input : FileInput) (st : LoadState) : Except LoadConfigError LoadState :=
  match input with
  | .ioError => .error (.ioErr path)
  | .content (.error err) =>
    .ok { st with errors := st.errors ++ [⟨.parseError, .parseErr err, path, none⟩] }
  | .content (.ok raw) =>
    let source : PromptSource := ⟨path⟩
    match raw.promptPath with
    | some pathStr =>
      match resolve_path home root pathStr with
      | .ok resolved =>
        .ok (insertPromptDefs home root source raw.prompt
          { st with defaultPromptPath := some resolved })
      | .error e =>
        .ok { st with errors := st.errors ++
          [⟨.invalidPrompt, .invalidDefaultPromptPath pathStr e, path, none⟩] }
    | none => .ok (insertPromptDefs home root source raw.prompt st)

/-- Process a list of files in order, threading the load state. -/
def processFiles (home : Option String) (root : String) :
    List (String × FileInput) → LoadState → Except LoadConfigError LoadState
  | [], st => .ok st
  | (path, input) :: rest, st =>
    match process_config_file home root path input st with
    | .ok st1 => processFiles home root rest st1
    | .error e => .error e

/-- Lexicographic order on code points, which agrees with the byte order Rust
compares UTF-8 path strings by. -/
def charListLe : List Char → List Char → Bool
  | [], _ => true
  | _ :: _, [] => false
  | x :: xs, y :: ys => if x = y then charListLe xs ys else decide (x < y)

def lexLe (a b : String) : Bool :=
  charListLe a.data b.data

def insertFileSorted (x : String × FileInput) :
    List (String × FileInput) → List (String × FileInput)
  | [] => [x]
  | y :: ys => if lexLe x.1 y.1 then x :: y :: ys else y :: insertFileSorted x ys

/-- `entries.sort()` on the collected override paths.  Directory entries are
distinct paths, so any correct sort gives the same list; insertion sort keeps
the model executable. -/
def sortFiles : List (String × FileInput) → List (String × FileInput)
  | [] => []
  | x :: xs => insertFileSorted x (sortFiles xs)

/-- The files `load_config` processes, in processing order: the base file
`config.toml` at the root when present, then the `conf.d` override files
sorted lexically by path. -/
def allFilesOf (root : String) (main : Option FileInput)
    (overrides : List (String × FileInput)) : List (String × FileInput) :=
  (match main with
   | some input => [(root ++ "/config.toml", input)]
   | none => []) ++ sortFiles overrides

/-- `load_config(root)`.  Inputs of the model: the home directory, the parse
outcome of the base file when it exists, and the list of `.toml` entries of
`conf.d` with their parse outcomes (path discovery, reading and TOML parsing
are external).  The default prompt path starts at the root; after all files
are processed the load fails with the collected diagnostics when any error
was recorded, and returns the registry with the warnings otherwise. -/
def load_config (home : Option String) (root : String) (main : Option FileInput)
    (overrides : List (String × FileInput)) : Except LoadConfigError ConfigLoad :=
  match processFiles home root (allFilesOf root main overrides)
      ⟨[], some root, [], []⟩ with
  | .error e => .error e
  | .ok st =>
    if st.errors = [] then
      .ok ⟨⟨root, st.defaultPromptPath, st.prompts⟩, st.warnings⟩
    else
      .error (.invalid st.errors st.warnings)

/-- `StructuredData`: a tagged reference to an external data file. -/
inductive StructuredData where
  | json (path : String) : StructuredData
  | toml (path : String) : StructuredData
deriving DecidableEq

/-- An error surfaced by the minijinja template pipeline. -/
structure TemplateError where
  msg : String
deriving DecidableEq

/-- The `render_template` pipeline (minijinja environment, template lookup,
data loading, context building, rendering) is third-party behaviour; the
model takes it as an uninterpreted function of the prompt name, base
directory, template path, structured data and arguments. -/
def TemplateRenderer : Type :=
  String → String → String → StructuredData → List String → Except TemplateError String

/-- Errors of `render_prompt`, one constructor per distinct failure message,
carrying the data interpolated into it. -/
inductive RenderError where
  /-- "unknown prompt: (name)". -/
  | unknownPrompt (name : String) : RenderError
  /-- "prompt (name) does not accept structured data". -/
  | noStructuredData (name : String) : RenderError
  /-- "sequence/template prompt missing prompt_path". -/
  | missingPromptPath (name : String) : RenderError
  /-- "failed to read fragment (file) for prompt (name)". -/
  | fragmentRead (file name : String) : RenderError
  /-- A placeholder substitution failure, propagated. -/
  | substitution (e : SubstError) : RenderError
  /-- "prompt (name) requires a data file for structured context". -/
  | requiresDataFile (name : String) : RenderError
  /-- A failure of the template pipeline, propagated. -/
  | templateFailure (e : TemplateError) : RenderError
deriving DecidableEq

/-- The assembler facade: the merged configuration and the load warnings. -/
structure PromptAssembler where
  config : Config
  warnings : List ConfigIssue
deriving DecidableEq

/-- `resolve_prompt_path`: the per-prompt override, or else the default. -/
def resolve_prompt_path (config : Config) (spec : PromptSpec) : Option String :=
  match spec.promptPathOverride with
  | some p => some p
  | none => config.defaultPromptPath

/-- `rendered.ends_with` applied to the line-feed character. -/
def ends_with_nl (s : String) : Bool :=
  decide (s.data.getLast? = some nl)

/-- The fragment loop of the sequence branch of `render_prompt`: read each
fragment (the filesystem is an input, a map from path to UTF-8 contents),
substitute placeholders, append, and push one line feed when the accumulated
output does not already end with one. -/
def renderSequenceGo (fs : String → Option String) (args : List String)
    (name base : String) : List String → String → Except RenderError String
  | [], rendered => .ok rendered
  | file :: rest, rendered =>
    match fs (joinPath base file) with
    | none => .error (.fragmentRead file name)
    | some content =>
      match substitute_placeholders content args with
      | .error e => .error (.substitution e)
      | .ok s =>
        let r := rendered ++ s
        renderSequenceGo fs args name base rest
          (if ends_with_nl r then r else r ++ String.mk [nl])

/-- `PromptAssembler::render_prompt`. -/
def render_prompt (tmpl : TemplateRenderer) (fs : String → Option String)
    (asm : PromptAssembler) (name : String) (args : List String)
    (data : Option StructuredData) : Except RenderError String :=
  match lookupName asm.config.prompts name with
  | none => .error (.unknownPrompt name)
  | some spec =>
    match spec.kind with
    | .sequence files =>
      match data with
      | some _ => .error (.noStructuredData name)
      | none =>
        match resolve_prompt_path asm.config spec with
        | none => .error (.missingPromptPath name)
        | some base => renderSequenceGo fs args name base files ""
    | .template t =>
      match data with
      | none => .error (.requiresDataFile name)
      | some d =>
        match resolve_prompt_path asm.config spec with
        | none => .error (.missingPromptPath name)
        | some base =>
          match tmpl name base t d args with
          | .ok out => .ok out
          | .error e => .error (.templateFailure e)

theorem ends_with_nl_append_nl (s : String) :
    ends_with_nl (s ++ String.mk [nl]) = true := by
  simp [ends_with_nl, String.data_append]

theorem renderSequenceGo_ends_with_nl (fs : String → Option String) (args : List String)
    (name base : String) :
    ∀ (files : List String) (rendered out : String),
      ends_with_nl rendered = true →
      renderSequenceGo fs args name base files rendered = .ok out →
      ends_with_nl out = true := by
  intro files
  induction files with
  | nil =>
    intro rendered out he h
    simp only [renderSequenceGo] at h
    cases h
    exact he
  | cons f rest ih =>
    intro rendered out he h
    simp only [renderSequenceGo] at h
    cases hr : fs (joinPath base f) with
    | none => rw [hr] at h; cases h
    | some content =>
      rw [hr] at h
      dsimp only at h
      cases hs : substitute_placeholders content args with
      | error e => rw [hs] at h; cases h
      | ok s =>
        rw [hs] at h
        refine ih _ out ?_ h
        by_cases hend : ends_with_nl (rendered ++ s) = true
        · simpa [hend] using hend
        · simp only [hend, if_neg, Bool.not_eq_true, if_false]
          exact ends_with_nl_append_nl (rendered ++ s)

theorem renderSequenceGo_cons_ends_with_nl (fs : String → Option String)
    (args : List String) (name base : String) (f : String) (rest : List String)
    (rendered out : String)
    (h : renderSequenceGo fs args name base (f :: rest) rendered = .ok out) :
    ends_with_nl out = true := by
  simp only [renderSequenceGo] at h
  cases hr : fs (joinPath base f) with
  | none => rw [hr] at h; cases h
  | some content =>
    rw [hr] at h
    dsimp only at h
    cases hs : substitute_placeholders content args with
    | error e => rw [hs] at h; cases h
    | ok s =>
      rw [hs] at h
      refine renderSequenceGo_ends_with_nl fs args name base rest _ out ?_ h
      by_cases hend : ends_with_nl (rendered ++ s) = true
      · simpa [hend] using hend
      · simp only [hend, if_neg, Bool.not_eq_true, if_false]
        exact ends_with_nl_append_nl (rendered ++ s)

/-- C4 (amended): in a sequence render each substituted fragment is appended
and then a single line break is appended only when the accumulated output
does not already end with one, so every successful render of a non-empty
sequence ends with a line break, a fragment lacking a trailing break gains
exactly one, and a fragment already ending in line breaks keeps them; the
concrete single-fragment render of "Hello (0)!" with argument "World" yields
exactly "Hello World!" followed by one line break. -/
theorem claim4_fragment_normalization :
    (∀ (tmpl : TemplateRenderer) (fs : String → Option String) (asm : PromptAssembler)
        (name : String) (args : List String) (spec : PromptSpec) (files : List String)
        (out : String),
        lookupName asm.config.prompts name = some spec →
        spec.kind = .sequence files → files ≠ [] →
        render_prompt tmpl fs asm name args none = .ok out →
        ends_with_nl out = true)
  ∧ (∀ (tmpl : TemplateRenderer) (fs : String → Option String) (asm : PromptAssembler)
        (name : String) (args : List String) (spec : PromptSpec) (f base content s : String),
        lookupName asm.config.prompts name = some spec →
        spec.kind = .sequence [f] →
        resolve_prompt_path asm.config spec = some base →
        fs (joinPath base f) = some content →
        substitute_placeholders content args = .ok s →
        render_prompt tmpl fs asm name args none =
          .ok (if ends_with_nl s then s else s ++ String.mk [nl]))
  ∧ render_prompt (fun _ _ _ _ _ => .error ⟨"unused"⟩)
      (fun p => if p = "/base/f.md" then some "Hello {0}!" else none)
      ⟨⟨"/r", some "/base",
        [("greet", ⟨none, .sequence ["f.md"], ⟨none, [], [], none, ⟨"/r/config.toml"⟩⟩⟩)]⟩, []⟩
      "greet" ["World"] none = .ok "Hello World!\n" := by
  refine ⟨?_, ?_, by decide⟩
  · intro tmpl fs asm name args spec files out hl hk hne h
    rw [render_prompt, hl] at h
    simp only [hk] at h
    cases files with
    | nil => exact absurd rfl hne
    | cons f rest =>
      cases hres : resolve_prompt_path asm.config spec with
      | none => rw [hres] at h; cases h
      | some base =>
        rw [hres] at h
        exact renderSequenceGo_cons_ends_with_nl fs args name base f rest "" out h
  · intro tmpl fs asm name args spec f base content s hl hk hres hfs hsub
    rw [render_prompt, hl]
    simp only [hk, hres]
    simp only [renderSequenceGo, hfs, hsub]
    have hnil : ("" : String) ++ s = s := by simp
    rw [hnil]

/-- C4 witness: the amended statement at the concrete "Hello (0)!" render. -/
theorem claim4_fragment_normalization_witness :
    ends_with_nl "Hello World!\n" = true
  ∧ render_prompt (fun _ _ _ _ _ => .error ⟨"unused"⟩)
      (fun p => if p = "/base/f.md" then some "Hello {0}!" else none)
      ⟨⟨"/r", some "/base",
        [("greet", ⟨none, .sequence ["f.md"], ⟨none, [], [], none, ⟨"/r/config.toml"⟩⟩⟩)]⟩, []⟩
      "greet" ["World"] none =
      .ok (if ends_with_nl "Hello World!" then "Hello World!"
           else "Hello World!" ++ String.mk [nl]) := by
  constructor
  · exact claim4_fragment_normalization.1 (fun _ _ _ _ _ => .error ⟨"unused"⟩)
      (fun p => if p = "/base/f.md" then some "Hello {0}!" else none)
      ⟨⟨"/r", some "/base",
        [("greet", ⟨none, .sequence ["f.md"], ⟨none, [], [], none, ⟨"/r/config.toml"⟩⟩⟩)]⟩, []⟩
      "greet" ["World"]
      ⟨none, .sequence ["f.md"], ⟨none, [], [], none, ⟨"/r/config.toml"⟩⟩⟩ ["f.md"]
      "Hello World!\n" (by decide) (by decide) (by decide) (by decide)
  · exact claim4_fragment_normalization.2.1 (fun _ _ _ _ _ => .error ⟨"unused"⟩)
      (fun p => if p = "/base/f.md" then some "Hello {0}!" else none)
      ⟨⟨"/r", some "/base",
        [("greet", ⟨none, .sequence ["f.md"], ⟨none, [], [], none, ⟨"/r/config.toml"⟩⟩⟩)]⟩, []⟩
      "greet" ["World"]
      ⟨none, .sequence ["f.md"], ⟨none, [], [], none, ⟨"/r/config.toml"⟩⟩⟩
      "f.md" "/base" "Hello {0}!" "Hello World!"
      (by decide) (by decide) (by decide) (by decide) (by decide)

/-- C4 counterexample: a fragment whose text already ends with two line
breaks is appended unchanged — the render keeps both breaks, so the fragment
is not normalized to end with exactly one (which would give a single break). -/
theorem claim4_counterexample :
    render_prompt (fun _ _ _ _ _ => .error ⟨"unused"⟩)
      (fun p => if p = "/base/f.md" then some "Hi\n\n" else none)
      ⟨⟨"/r", some "/base",
        [("greet", ⟨none, .sequence ["f.md"], ⟨none, [], [], none, ⟨"/r/config.toml"⟩⟩⟩)]⟩, []⟩
      "greet" [] none = .ok "Hi\n\n"
  ∧ ("Hi\n\n" : String) ≠ "Hi\n" := by
  constructor
  · decide
  · decide

/-- C9: a sequence prompt invoked with any structured-data reference fails
with the does-not-accept-structured-data error naming the prompt, for every
filesystem and argument list; the result does not depend on the filesystem,
so no fragment file is read. -/
theorem claim9_sequence_rejects_structured_data :
    ∀ (tmpl : TemplateRenderer) (fs : String → Option String) (asm : PromptAssembler)
      (name : String) (spec : PromptSpec) (files : List String) (args : List String)
      (d : StructuredData),
      lookupName asm.config.prompts name = some spec →
      spec.kind = .sequence files →
      render_prompt tmpl fs asm name args (some d) = .error (.noStructuredData name) := by
  intro tmpl fs asm name spec files args d hl hk
  rw [render_prompt, hl]
  simp only [hk]

/-- C9 witness: the rejection at a concrete sequence prompt and data file. -/
theorem claim9_sequence_rejects_structured_data_witness :
    render_prompt (fun _ _ _ _ _ => .error ⟨"unused"⟩) (fun _ => none)
      ⟨⟨"/r", some "/base",
        [("seq", ⟨none, .sequence ["a.md"], ⟨none, [], [], none, ⟨"/r/config.toml"⟩⟩⟩)]⟩, []⟩
      "seq" [] (some (.json "/tmp/d.json")) = .error (.noStructuredData "seq") :=
  claim9_sequence_rejects_structured_data (fun _ _ _ _ _ => .error ⟨"unused"⟩) (fun _ => none)
    ⟨⟨"/r", some "/base",
      [("seq", ⟨none, .sequence ["a.md"], ⟨none, [], [], none, ⟨"/r/config.toml"⟩⟩⟩)]⟩, []⟩
    "seq" ⟨none, .sequence ["a.md"], ⟨none, [], [], none, ⟨"/r/config.toml"⟩⟩⟩
    ["a.md"] [] (.json "/tmp/d.json") (by decide) (by decide)

/-- The build issues of one file's prompt table, in table order. -/
def promptBuildErrors (home : Option String) (root : String) (source : PromptSource)
    (defs : List (String × RawPrompt)) : List ConfigIssue :=
  defs.filterMap fun d =>
    match build_prompt_spec home root d.1 d.2 source with
    | .ok _ => none
    | .error i => some i

/-- The issues one file contributes to the error list. -/
def fileErrors (home : Option String) (root : String) (path : String) :
    FileInput → List ConfigIssue
  | .ioError => []
  | .content (.error err) => [⟨.parseError, .parseErr err, path, none⟩]
  | .content (.ok raw) =>
    match raw.promptPath with
    | some pathStr =>
      match resolve_path home root pathStr with
      | .ok _ => promptBuildErrors home root ⟨path⟩ raw.prompt
      | .error e => [⟨.invalidPrompt, .invalidDefaultPromptPath pathStr e, path, none⟩]
    | none => promptBuildErrors home root ⟨path⟩ raw.prompt

/-- All errors a load collects, file by file in processing order. -/
def errorsRef (home : Option String) (root : String) :
    List (String × FileInput) → List ConfigIssue
  | [] => []
  | f :: rest => fileErrors home root f.1 f.2 ++ errorsRef home root rest

/-- The prompt definitions a file contributes to the registry, as
(file, name, raw prompt) triples; a file skipped by a parse failure or a
failing file-level prompt_path contributes none. -/
def fileDefs (home : Option String) (root : String) (path : String) :
    FileInput → List (String × String × RawPrompt)
  | .content (.ok raw) =>
    match raw.promptPath with
    | some pathStr =>
      match resolve_path home root pathStr with
      | .ok _ => raw.prompt.map fun d => (path, d.1, d.2)
      | .error _ => []
    | none => raw.prompt.map fun d => (path, d.1, d.2)
  | _ => []

/-- All prompt definitions of a load, in processing order. -/
def defsRef (home : Option String) (root : String) :
    List (String × FileInput) → List (String × String × RawPrompt)
  | [] => []
  | f :: rest => fileDefs home root f.1 f.2 ++ defsRef home root rest

/-- The last definition of a name in processing order. -/
def lastDef : List (String × String × RawPrompt) → String → Option (String × String × RawPrompt)
  | [], _ => none
  | d :: rest, n =>
    match lastDef rest n with
    | some r => some r
    | none => if d.2.1 = n then some d else none

/-- The spec held by the registry for a name after a list of definitions: the
last definition of that name whose build succeeded. -/
def lastOkSpec (home : Option String) (root : String) :
    List (String × String × RawPrompt) → String → Option PromptSpec
  | [], _ => none
  | (file, m, p) :: rest, n =>
    match lastOkSpec home root rest n with
    | some s => some s
    | none =>
      if m = n then (build_prompt_spec home root m p ⟨file⟩).toOption else none

/-- Replace-or-append update of an association list. -/
def assocSet {α : Type} : List (String × α) → String → α → List (String × α)
  | [], k, v => [(k, v)]
  | (k0, v0) :: rest, k, v =>
    if k0 = k then (k0, v) :: rest else (k0, v0) :: assocSet rest k v

/-- The override warnings of a list of definitions, threading the file
currently defining each name: each redefinition of a name emits one override
warning, placed at the redefining file and naming the earlier definition's
source file. -/
def warnRef : List (String × String × RawPrompt) → List (String × String) → List ConfigIssue
  | [], _ => []
  | (file, n, _) :: rest, seen =>
    match lookupName seen n with
    | some prevFile =>
      ⟨.override, .overridesFrom n prevFile, file, none⟩ ::
        warnRef rest (assocSet seen n file)
    | none => warnRef rest (assocSet seen n file)

/-- The name-to-defining-file map after a list of definitions. -/
def updRef : List (String × String × RawPrompt) → List (String × String) → List (String × String)
  | [], seen => seen
  | (file, n, _) :: rest, seen => updRef rest (assocSet seen n file)

/-- The defining file of each registry entry. -/
def srcMap (m : List (String × PromptSpec)) : List (String × String) :=
  m.map fun e => (e.1, e.2.metadata.source.path)

theorem indexInsert_fst {α : Type} :
    ∀ (m : List (String × α)) (k : String) (v : α),
      (indexInsert m k v).1 = lookupName m k := by
  intro m k v
  induction m with
  | nil => rfl
  | cons e rest ih =>
    rcases e with ⟨k0, v0⟩
    by_cases h : k0 = k <;> simp [indexInsert, lookupName, h, ih]

theorem lookupName_indexInsert {α : Type} :
    ∀ (m : List (String × α)) (k : String) (v : α) (n : String),
      lookupName (indexInsert m k v).2 n = if k = n then some v else lookupName m n := by
  intro m k v n
  induction m with
  | nil =>
    by_cases h : k = n <;> simp [indexInsert, lookupName, h]
  | cons e rest ih =>
    rcases e with ⟨k0, v0⟩
    by_cases h0 : k0 = k
    · subst h0
      by_cases hn : k0 = n <;> simp [indexInsert, lookupName, hn]
    · by_cases hn : k0 = n
      · subst hn
        have hne : ¬ k = k0 := fun h => h0 h.symm
        simp only [indexInsert, if_neg h0]
        simp [lookupName, hne]
      · simp [indexInsert, lookupName, h0, hn, ih]

theorem indexInsert_keys {α : Type} :
    ∀ (m : List (String × α)) (k : String) (v : α),
      (indexInsert m k v).2.map Prod.fst =
        if (lookupName m k).isNone then m.map Prod.fst ++ [k] else m.map Prod.fst := by
  intro m k v
  induction m with
  | nil => simp [indexInsert, lookupName]
  | cons e rest ih =>
    rcases e with ⟨k0, v0⟩
    by_cases h : k0 = k
    · simp [indexInsert, lookupName, h]
    · simp only [indexInsert, lookupName, if_neg h]
      cases hl : lookupName rest k with
      | none => simp [hl] at ih ⊢; exact ih
      | some w => simp [hl] at ih ⊢; exact ih

theorem lookupName_eq_none_iff {α : Type} :
    ∀ (m : List (String × α)) (k : String),
      lookupName m k = none ↔ k ∉ m.map Prod.fst := by
  intro m k
  induction m with
  | nil => simp [lookupName]
  | cons e rest ih =>
    rcases e with ⟨k0, v0⟩
    by_cases h : k0 = k
    · subst h
      simp [lookupName]
    · have hne : ¬ k = k0 := fun hk => h hk.symm
      simp [lookupName, h, ih, hne]

theorem indexInsert_nodup {α : Type} (m : List (String × α)) (k : String) (v : α)
    (h : (m.map Prod.fst).Nodup) : ((indexInsert m k v).2.map Prod.fst).Nodup := by
  rw [indexInsert_keys]
  cases hl : lookupName m k with
  | none =>
    have hk : k ∉ m.map Prod.fst := (lookupName_eq_none_iff m k).mp hl
    simp [List.nodup_append, h, hk]
  | some w =>
    simp [hl, h]

theorem srcMap_indexInsert (m : List (String × PromptSpec)) (k : String) (v : PromptSpec) :
    srcMap (indexInsert m k v).2 = assocSet (srcMap m) k v.metadata.source.path := by
  induction m with
  | nil => rfl
  | cons e rest ih =>
    rcases e with ⟨k0, v0⟩
    by_cases h : k0 = k <;> simp [indexInsert, srcMap, assocSet, h] <;>
      simpa [srcMap] using ih

theorem lookupName_srcMap (m : List (String × PromptSpec)) (n : String) :
    lookupName (srcMap m) n = (lookupName m n).map fun sp => sp.metadata.source.path := by
  induction m with
  | nil => rfl
  | cons e rest ih =>
    rcases e with ⟨k0, v0⟩
    by_cases h : k0 = n <;> simp [srcMap, lookupName, h] <;>
      simpa [srcMap] using ih

theorem build_ok_source (home : Option String) (root : String) (n : String)
    (p : RawPrompt) (src : PromptSource) (spec : PromptSpec)
    (h : build_prompt_spec home root n p src = .ok spec) :
    spec.metadata.source = src := by
  unfold build_prompt_spec at h
  dsimp only at h
  cases hpp : p.promptPath with
  | some q =>
    rw [hpp] at h
    dsimp only at h
    cases hres : resolve_path home root q with
    | ok r =>
      rw [hres] at h
      dsimp only at h
      cases hk : p.prompts <;> cases ht : p.template <;> rw [hk, ht] at h <;>
        dsimp only at h
      · cases h
      · cases hv : parse_prompt_vars n p.vars src <;> rw [hv] at h <;> cases h <;> rfl
      · split at h
        · cases h
        · cases hv : parse_prompt_vars n p.vars src <;> rw [hv] at h <;> cases h <;> rfl
      · cases h
    | error e =>
      rw [hres] at h
      cases h
  | none =>
    rw [hpp] at h
    dsimp only at h
    cases hk : p.prompts <;> cases ht : p.template <;> rw [hk, ht] at h <;>
      dsimp only at h
    · cases h
    · cases hv : parse_prompt_vars n p.vars src <;> rw [hv] at h <;> cases h <;> rfl
    · split at h
      · cases h
      · cases hv : parse_prompt_vars n p.vars src <;> rw [hv] at h <;> cases h <;> rfl
    · cases h

theorem ins_errors (home : Option String) (root : String) (src : PromptSource) :
    ∀ (ds : List (String × RawPrompt)) (st : LoadState),
      (insertPromptDefs home root src ds st).errors =
        st.errors ++ promptBuildErrors home root src ds := by
  intro ds
  induction ds with
  | nil => intro st; simp [insertPromptDefs, promptBuildErrors]
  | cons d rest ih =>
    intro st
    rcases d with ⟨name, prompt⟩
    simp only [insertPromptDefs]
    cases hb : build_prompt_spec home root name prompt src with
    | ok spec =>
      cases hp : (indexInsert st.prompts name spec).1 <;>
        simp [hp, ih, promptBuildErrors, hb]
    | error i =>
      simp [ih, promptBuildErrors, hb]

theorem ins_default (home : Option String) (root : String) (src : PromptSource) :
    ∀ (ds : List (String × RawPrompt)) (st : LoadState),
      (insertPromptDefs home root src ds st).defaultPromptPath = st.defaultPromptPath := by
  intro ds
  induction ds with
  | nil => intro st; rfl
  | cons d rest ih =>
    intro st
    rcases d with ⟨name, prompt⟩
    simp only [insertPromptDefs]
    cases hb : build_prompt_spec home root name prompt src with
    | ok spec => cases hp : (indexInsert st.prompts name spec).1 <;> simp [hp, hb, ih]
    | error i => simp [hb, ih]

theorem ins_nodup (home : Option String) (root : String) (src : PromptSource) :
    ∀ (ds : List (String × RawPrompt)) (st : LoadState),
      (st.prompts.map Prod.fst).Nodup →
      ((insertPromptDefs home root src ds st).prompts.map Prod.fst).Nodup := by
  intro ds
  induction ds with
  | nil => intro st h; exact h
  | cons d rest ih =>
    intro st h
    rcases d with ⟨name, prompt⟩
    simp only [insertPromptDefs]
    cases hb : build_prompt_spec home root name prompt src with
    | ok spec =>
      cases hp : (indexInsert st.prompts name spec).1 <;> simp only [hb, hp] <;>
        exact ih _ (indexInsert_nodup st.prompts name spec h)
    | error i =>
      simp only [hb]
      exact ih _ h

theorem ins_lookup (home : Option String) (root : String) (src : PromptSource) :
    ∀ (ds : List (String × RawPrompt)) (st : LoadState) (n : String),
      lookupName (insertPromptDefs home root src ds st).prompts n =
        match lastOkSpec home root (ds.map fun d => (src.path, d.1, d.2)) n with
        | some s => some s
        | none => lookupName st.prompts n := by
  intro ds
  induction ds with
  | nil => intro st n; rfl
  | cons d rest ih =>
    intro st n
    rcases d with ⟨name, prompt⟩
    simp only [insertPromptDefs, List.map_cons, lastOkSpec]
    cases hb : build_prompt_spec home root name prompt src with
    | ok spec =>
      have hstep : ∀ st1 : LoadState, st1.prompts = (indexInsert st.prompts name spec).2 →
          lookupName (insertPromptDefs home root src rest st1).prompts n =
            match lastOkSpec home root (rest.map fun d => (src.path, d.1, d.2)) n with
            | some s => some s
            | none => if name = n then some spec else lookupName st.prompts n := by
        intro st1 hst1
        rw [ih st1 n, hst1]
        cases lastOkSpec home root (rest.map fun d => (src.path, d.1, d.2)) n with
        | some s => rfl
        | none => simp [lookupName_indexInsert]
      have hsrc : (⟨src.path⟩ : PromptSource) = src := rfl
      cases hp : (indexInsert st.prompts name spec).1 with
      | some previous =>
        simp only [hb, hp]
        rw [hstep _ rfl]
        cases lastOkSpec home root (rest.map fun d => (src.path, d.1, d.2)) n with
        | some s => rfl
        | none =>
          simp only [hsrc, hb, Except.toOption]
          by_cases hnn : name = n <;> simp [hnn]
      | none =>
        simp only [hb, hp]
        rw [hstep _ rfl]
        cases lastOkSpec home root (rest.map fun d => (src.path, d.1, d.2)) n with
        | some s => rfl
        | none =>
          simp only [hsrc, hb, Except.toOption]
          by_cases hnn : name = n <;> simp [hnn]
    | error i =>
      simp only [hb]
      rw [ih _ n]
      have hsrc : (⟨src.path⟩ : PromptSource) = src := rfl
      cases lastOkSpec home root (rest.map fun d => (src.path, d.1, d.2)) n with
      | some s => rfl
      | none =>
        simp only [hsrc, hb, Except.toOption]
        by_cases hnn : name = n <;> simp [hnn]

theorem ins_warnings (home : Option String) (root : String) (src : PromptSource) :
    ∀ (ds : List (String × RawPrompt)) (st : LoadState),
      (∀ d ∈ ds, ∃ s, build_prompt_spec home root d.1 d.2 src = .ok s) →
      (insertPromptDefs home root src ds st).warnings =
          st.warnings ++ warnRef (ds.map fun d => (src.path, d.1, d.2)) (srcMap st.prompts)
        ∧ srcMap (insertPromptDefs home root src ds st).prompts =
            updRef (ds.map fun d => (src.path, d.1, d.2)) (srcMap st.prompts) := by
  intro ds
  induction ds with
  | nil => intro st _; simp [insertPromptDefs, warnRef, updRef]
  | cons d rest ih =>
    intro st hok
    rcases d with ⟨name, prompt⟩
    obtain ⟨spec, hb⟩ := hok ⟨name, prompt⟩ (by simp)
    simp only [insertPromptDefs, List.map_cons, warnRef, updRef, hb]
    have hsp : spec.metadata.source.path = src.path := by
      rw [build_ok_source home root name prompt src spec hb]
    have hrest : ∀ d ∈ rest, ∃ s, build_prompt_spec home root d.1 d.2 src = .ok s :=
      fun d hd => hok d (by simp [hd])
    cases hp : (indexInsert st.prompts name spec).1 with
    | some previous =>
      have hlook : lookupName (srcMap st.prompts) name = some previous.metadata.source.path := by
        rw [lookupName_srcMap, ← indexInsert_fst st.prompts name spec, hp]
        rfl
      simp only [hp, hlook]
      obtain ⟨hw, hm⟩ := ih { st with
          prompts := (indexInsert st.prompts name spec).2,
          warnings := st.warnings ++
            [⟨.override, .overridesFrom name previous.metadata.source.path,
              src.path, none⟩] } hrest
      refine ⟨?_, ?_⟩
      · rw [hw]
        have : srcMap (indexInsert st.prompts name spec).2 =
            assocSet (srcMap st.prompts) name src.path := by
          rw [srcMap_indexInsert, hsp]
        rw [this]
        simp
      · rw [hm]
        have : srcMap (indexInsert st.prompts name spec).2 =
            assocSet (srcMap st.prompts) name src.path := by
          rw [srcMap_indexInsert, hsp]
        rw [this]
    | none =>
      have hlook : lookupName (srcMap st.prompts) name = none := by
        rw [lookupName_srcMap, ← indexInsert_fst st.prompts name spec, hp]
        rfl
      simp only [hp, hlook]
      obtain ⟨hw, hm⟩ := ih { st with
          prompts := (indexInsert st.prompts name spec).2 } hrest
      refine ⟨?_, ?_⟩
      · rw [hw]
        have : srcMap (indexInsert st.prompts name spec).2 =
            assocSet (srcMap st.prompts) name src.path := by
          rw [srcMap_indexInsert, hsp]
        rw [this]
      · rw [hm]
        have : srcMap (indexInsert st.prompts name spec).2 =
            assocSet (srcMap st.prompts) name src.path := by
          rw [srcMap_indexInsert, hsp]
        rw [this]

theorem pcf_errors (home : Option String) (root : String) (path : String) (input : FileInput)
    (st st1 : LoadState) (h : process_config_file home root path input st = .ok st1) :
    st1.errors = st.errors ++ fileErrors home root path input := by
  cases input with
  | ioError => simp [process_config_file] at h
  | content parsed =>
    cases parsed with
    | error err =>
      simp only [process_config_file] at h
      cases h
      simp [fileErrors]
    | ok raw =>
      simp only [process_config_file] at h
      cases hq : raw.promptPath with
      | some q =>
        rw [hq] at h
        dsimp only at h
        cases hres : resolve_path home root q with
        | ok r =>
          rw [hres] at h
          dsimp only at h
          cases h
          rw [ins_errors]
          simp [fileErrors, hq, hres]
        | error e =>
          rw [hres] at h
          dsimp only at h
          cases h
          simp [fileErrors, hq, hres]
      | none =>
        rw [hq] at h
        dsimp only at h
        cases h
        rw [ins_errors]
        simp [fileErrors, hq]

theorem pcf_default_isSome (home : Option String) (root : String) (path : String)
    (input : FileInput) (st st1 : LoadState)
    (h : process_config_file home root path input st = .ok st1)
    (hd : st.defaultPromptPath.isSome = true) :
    st1.defaultPromptPath.isSome = true := by
  cases input with
  | ioError => simp [process_config_file] at h
  | content parsed =>
    cases parsed with
    | error err =>
      simp only [process_config_file] at h
      cases h
      exact hd
    | ok raw =>
      simp only [process_config_file] at h
      cases hq : raw.promptPath with
      | some q =>
        rw [hq] at h
        dsimp only at h
        cases hres : resolve_path home root q with
        | ok r =>
          rw [hres] at h
          dsimp only at h
          cases h
          rw [ins_default]
          rfl
        | error e =>
          rw [hres] at h
          dsimp only at h
          cases h
          exact hd
      | none =>
        rw [hq] at h
        dsimp only at h
        cases h
        rw [ins_default]
        exact hd

theorem pcf_default_no_decl (home : Option String) (root : String) (path : String)
    (input : FileInput) (st st1 : LoadState)
    (h : process_config_file home root path input st = .ok st1)
    (hnd : ∀ raw, input = .content (.ok raw) → raw.promptPath = none) :
    st1.defaultPromptPath = st.defaultPromptPath := by
  cases input with
  | ioError => simp [process_config_file] at h
  | content parsed =>
    cases parsed with
    | error err =>
      simp only [process_config_file] at h
      cases h
      rfl
    | ok raw =>
      have hq : raw.promptPath = none := hnd raw rfl
      simp only [process_config_file] at h
      rw [hq] at h
      dsimp only at h
      cases h
      rw [ins_default]

theorem pcf_nodup (home : Option String) (root : String) (path : String)
    (input : FileInput) (st st1 : LoadState)
    (h : process_config_file home root path input st = .ok st1)
    (hn : (st.prompts.map Prod.fst).Nodup) :
    (st1.prompts.map Prod.fst).Nodup := by
  cases input with
  | ioError => simp [process_config_file] at h
  | content parsed =>
    cases parsed with
    | error err =>
      simp only [process_config_file] at h
      cases h
      exact hn
    | ok raw =>
      simp only [process_config_file] at h
      cases hq : raw.promptPath with
      | some q =>
        rw [hq] at h
        dsimp only at h
        cases hres : resolve_path home root q with
        | ok r =>
          rw [hres] at h
          dsimp only at h
          cases h
          exact ins_nodup home root _ raw.prompt _ hn
        | error e =>
          rw [hres] at h
          dsimp only at h
          cases h
          exact hn
      | none =>
        rw [hq] at h
        dsimp only at h
        cases h
        exact ins_nodup home root _ raw.prompt _ hn

theorem pcf_lookup (home : Option String) (root : String) (path : String)
    (input : FileInput) (st st1 : LoadState)
    (h : process_config_file home root path input st = .ok st1) (n : String) :
    lookupName st1.prompts n =
      match lastOkSpec home root (fileDefs home root path input) n with
      | some s => some s
      | none => lookupName st.prompts n := by
  cases input with
  | ioError => simp [process_config_file] at h
  | content parsed =>
    cases parsed with
    | error err =>
      simp only [process_config_file] at h
      cases h
      simp [fileDefs, lastOkSpec]
    | ok raw =>
      simp only [process_config_file] at h
      cases hq : raw.promptPath with
      | some q =>
        rw [hq] at h
        dsimp only at h
        cases hres : resolve_path home root q with
        | ok r =>
          rw [hres] at h
          dsimp only at h
          cases h
          rw [ins_lookup]
          simp [fileDefs, hq, hres]
        | error e =>
          rw [hres] at h
          dsimp only at h
          cases h
          simp [fileDefs, hq, hres, lastOkSpec]
      | none =>
        rw [hq] at h
        dsimp only at h
        cases h
        rw [ins_lookup]
        simp [fileDefs, hq]

theorem pcf_warnings (home : Option String) (root : String) (path : String)
    (input : FileInput) (st st1 : LoadState)
    (h : process_config_file home root path input st = .ok st1)
    (hok : ∀ d ∈ fileDefs home root path input,
      ∃ s, build_prompt_spec home root d.2.1 d.2.2 ⟨d.1⟩ = .ok s) :
    st1.warnings = st.warnings ++
        warnRef (fileDefs home root path input) (srcMap st.prompts)
      ∧ srcMap st1.prompts = updRef (fileDefs home root path input) (srcMap st.prompts) := by
  cases input with
  | ioError => simp [process_config_file] at h
  | content parsed =>
    cases parsed with
    | error err =>
      simp only [process_config_file] at h
      cases h
      simp [fileDefs, warnRef, updRef]
    | ok raw =>
      simp only [process_config_file] at h
      cases hq : raw.promptPath with
      | some q =>
        rw [hq] at h
        dsimp only at h
        cases hres : resolve_path home root q with
        | ok r =>
          rw [hres] at h
          dsimp only at h
          cases h
          have hfd : fileDefs home root path (.content (.ok raw)) =
              raw.prompt.map fun d => (path, d.1, d.2) := by
            simp [fileDefs, hq, hres]
          rw [hfd] at hok ⊢
          have hok2 : ∀ d ∈ raw.prompt, ∃ s,
              build_prompt_spec home root d.1 d.2 (⟨path⟩ : PromptSource) = .ok s := by
            intro d hd
            exact hok (path, d.1, d.2) (List.mem_map_of_mem _ hd)
          exact ins_warnings home root ⟨path⟩ raw.prompt _ hok2
        | error e =>
          rw [hres] at h
          dsimp only at h
          cases h
          simp [fileDefs, hq, hres, warnRef, updRef]
      | none =>
        rw [hq] at h
        dsimp only at h
        cases h
        have hfd : fileDefs home root path (.content (.ok raw)) =
            raw.prompt.map fun d => (path, d.1, d.2) := by
          simp [fileDefs, hq]
        rw [hfd] at hok ⊢
        have hok2 : ∀ d ∈ raw.prompt, ∃ s,
            build_prompt_spec home root d.1 d.2 (⟨path⟩ : PromptSource) = .ok s := by
          intro d hd
          exact hok (path, d.1, d.2) (List.mem_map_of_mem _ hd)
        exact ins_warnings home root ⟨path⟩ raw.prompt _ hok2

theorem pcf_ok_of_not_io (home : Option String) (root : String) (path : String)
    (input : FileInput) (st : LoadState) (hio : input ≠ .ioError) :
    ∃ st1, process_config_file home root path input st = .ok st1 := by
  cases input with
  | ioError => exact absurd rfl hio
  | content parsed =>
    cases parsed with
    | error err => exact ⟨_, rfl⟩
    | ok raw =>
      simp only [process_config_file]
      cases hq : raw.promptPath with
      | some q =>
        dsimp only
        cases hres : resolve_path home root q with
        | ok r => exact ⟨_, rfl⟩
        | error e => exact ⟨_, rfl⟩
      | none => exact ⟨_, rfl⟩

theorem updRef_append (A B : List (String × String × RawPrompt)) :
    ∀ seen, updRef (A ++ B) seen = updRef B (updRef A seen) := by
  induction A with
  | nil => intro seen; rfl
  | cons d rest ih =>
    intro seen
    rcases d with ⟨file, n, p⟩
    simp only [List.cons_append, updRef]
    exact ih _

theorem warnRef_append (A B : List (String × String × RawPrompt)) :
    ∀ seen, warnRef (A ++ B) seen = warnRef A seen ++ warnRef B (updRef A seen) := by
  induction A with
  | nil => intro seen; rfl
  | cons d rest ih =>
    intro seen
    rcases d with ⟨file, n, p⟩
    simp only [List.cons_append, warnRef, updRef]
    cases lookupName seen n with
    | some prevFile => simp [ih]
    | none => simp [ih]

theorem lastOkSpec_append (home : Option String) (root : String)
    (A B : List (String × String × RawPrompt)) (n : String) :
    lastOkSpec home root (A ++ B) n =
      match lastOkSpec home root B n with
      | some s => some s
      | none => lastOkSpec home root A n := by
  induction A with
  | nil =>
    simp only [List.nil_append]
    cases h : lastOkSpec home root B n <;> simp [h, lastOkSpec]
  | cons d rest ih =>
    rcases d with ⟨file, m, p⟩
    simp only [List.cons_append, lastOkSpec, List.append_eq]
    rw [ih]
    cases h1 : lastOkSpec home root B n <;> cases h2 : lastOkSpec home root rest n <;>
      simp [h1, h2]

theorem lastDef_append (A B : List (String × String × RawPrompt)) (n : String) :
    lastDef (A ++ B) n =
      match lastDef B n with
      | some d => some d
      | none => lastDef A n := by
  induction A with
  | nil =>
    simp only [List.nil_append]
    cases h : lastDef B n <;> simp [h, lastDef]
  | cons d rest ih =>
    simp only [List.cons_append, lastDef, List.append_eq]
    rw [ih]
    cases h1 : lastDef B n <;> cases h2 : lastDef rest n <;> simp [h1, h2]

theorem pf_errors (home : Option String) (root : String) :
    ∀ (files : List (String × FileInput)) (st st' : LoadState),
      processFiles home root files st = .ok st' →
      st'.errors = st.errors ++ errorsRef home root files := by
  intro files
  induction files with
  | nil =>
    intro st st' h
    cases h
    simp [errorsRef]
  | cons f rest ih =>
    intro st st' h
    rcases f with ⟨path, input⟩
    simp only [processFiles] at h
    cases hpc : process_config_file home root path input st with
    | ok st1 =>
      rw [hpc] at h
      dsimp only at h
      rw [ih st1 st' h, pcf_errors home root path input st st1 hpc]
      simp [errorsRef]
    | error e =>
      rw [hpc] at h
      cases h

theorem pf_default_isSome (home : Option String) (root : String) :
    ∀ (files : List (String × FileInput)) (st st' : LoadState),
      processFiles home root files st = .ok st' →
      st.defaultPromptPath.isSome = true →
      st'.defaultPromptPath.isSome = true := by
  intro files
  induction files with
  | nil =>
    intro st st' h hd
    cases h
    exact hd
  | cons f rest ih =>
    intro st st' h hd
    rcases f with ⟨path, input⟩
    simp only [processFiles] at h
    cases hpc : process_config_file home root path input st with
    | ok st1 =>
      rw [hpc] at h
      dsimp only at h
      exact ih st1 st' h (pcf_default_isSome home root path input st st1 hpc hd)
    | error e =>
      rw [hpc] at h
      cases h

theorem pf_default_no_decl (home : Option String) (root : String) :
    ∀ (files : List (String × FileInput)) (st st' : LoadState),
      processFiles home root files st = .ok st' →
      (∀ f ∈ files, ∀ raw, f.2 = FileInput.content (.ok raw) → raw.promptPath = none) →
      st'.defaultPromptPath = st.defaultPromptPath := by
  intro files
  induction files with
  | nil =>
    intro st st' h _
    cases h
    rfl
  | cons f rest ih =>
    intro st st' h hnd
    rcases f with ⟨path, input⟩
    simp only [processFiles] at h
    cases hpc : process_config_file home root path input st with
    | ok st1 =>
      rw [hpc] at h
      dsimp only at h
      rw [ih st1 st' h (fun f hf => hnd f (by simp [hf]))]
      exact pcf_default_no_decl home root path input st st1 hpc
        (fun raw hr => hnd (path, input) (by simp) raw hr)
    | error e =>
      rw [hpc] at h
      cases h

theorem pf_nodup (home : Option String) (root : String) :
    ∀ (files : List (String × FileInput)) (st st' : LoadState),
      processFiles home root files st = .ok st' →
      (st.prompts.map Prod.fst).Nodup →
      (st'.prompts.map Prod.fst).Nodup := by
  intro files
  induction files with
  | nil =>
    intro st st' h hn
    cases h
    exact hn
  | cons f rest ih =>
    intro st st' h hn
    rcases f with ⟨path, input⟩
    simp only [processFiles] at h
    cases hpc : process_config_file home root path input st with
    | ok st1 =>
      rw [hpc] at h
      dsimp only at h
      exact ih st1 st' h (pcf_nodup home root path input st st1 hpc hn)
    | error e =>
      rw [hpc] at h
      cases h

theorem pf_lookup (home : Option String) (root : String) :
    ∀ (files : List (String × FileInput)) (st st' : LoadState),
      processFiles home root files st = .ok st' →
      ∀ n, lookupName st'.prompts n =
        match lastOkSpec home root (defsRef home root files) n with
        | some s => some s
        | none => lookupName st.prompts n := by
  intro files
  induction files with
  | nil =>
    intro st st' h n
    cases h
    simp [defsRef, lastOkSpec]
  | cons f rest ih =>
    intro st st' h n
    rcases f with ⟨path, input⟩
    simp only [processFiles] at h
    cases hpc : process_config_file home root path input st with
    | ok st1 =>
      rw [hpc] at h
      dsimp only at h
      rw [ih st1 st' h n]
      simp only [defsRef, lastOkSpec_append]
      rw [pcf_lookup home root path input st st1 hpc n]
      cases lastOkSpec home root (defsRef home root rest) n <;>
        cases lastOkSpec home root (fileDefs home root path input) n <;> rfl
    | error e =>
      rw [hpc] at h
      cases h

theorem pf_warnings (home : Option String) (root : String) :
    ∀ (files : List (String × FileInput)) (st st' : LoadState),
      processFiles home root files st = .ok st' →
      (∀ d ∈ defsRef home root files,
        ∃ s, build_prompt_spec home root d.2.1 d.2.2 ⟨d.1⟩ = .ok s) →
      st'.warnings = st.warnings ++ warnRef (defsRef home root files) (srcMap st.prompts)
        ∧ srcMap st'.prompts = updRef (defsRef home root files) (srcMap st.prompts) := by
  intro files
  induction files with
  | nil =>
    intro st st' h _
    cases h
    simp [defsRef, warnRef, updRef]
  | cons f rest ih =>
    intro st st' h hok
    rcases f with ⟨path, input⟩
    simp only [processFiles] at h
    cases hpc : process_config_file home root path input st with
    | ok st1 =>
      rw [hpc] at h
      dsimp only at h
      have hokFile : ∀ d ∈ fileDefs home root path input,
          ∃ s, build_prompt_spec home root d.2.1 d.2.2 ⟨d.1⟩ = .ok s := by
        intro d hd
        exact hok d (by simp [defsRef, hd])
      have hokRest : ∀ d ∈ defsRef home root rest,
          ∃ s, build_prompt_spec home root d.2.1 d.2.2 ⟨d.1⟩ = .ok s := by
        intro d hd
        exact hok d (by simp [defsRef, hd])
      obtain ⟨hw1, hm1⟩ := pcf_warnings home root path input st st1 hpc hokFile
      obtain ⟨hw2, hm2⟩ := ih st1 st' h hokRest
      constructor
      · rw [hw2, hw1, hm1]
        simp only [defsRef, warnRef_append]
        simp
      · rw [hm2, hm1]
        simp only [defsRef, updRef_append]
    | error e =>
      rw [hpc] at h
      cases h

theorem pf_ok_of_not_io (home : Option String) (root : String) :
    ∀ (files : List (String × FileInput)) (st : LoadState),
      (∀ f ∈ files, f.2 ≠ FileInput.ioError) →
      ∃ st', processFiles home root files st = .ok st' := by
  intro files
  induction files with
  | nil => intro st _; exact ⟨st, rfl⟩
  | cons f rest ih =>
    intro st hio
    rcases f with ⟨path, input⟩
    obtain ⟨st1, hpc⟩ := pcf_ok_of_not_io home root path input st
      (hio (path, input) (by simp))
    obtain ⟨st', hpf⟩ := ih st1 (fun f hf => hio f (by simp [hf]))
    refine ⟨st', ?_⟩
    simp only [processFiles, hpc]
    exact hpf

theorem mem_insertFileSorted (x y : String × FileInput)
    (l : List (String × FileInput)) :
    x ∈ insertFileSorted y l ↔ x = y ∨ x ∈ l := by
  induction l with
  | nil => simp [insertFileSorted]
  | cons z rest ih =>
    by_cases h : lexLe y.1 z.1 <;> simp [insertFileSorted, h, ih] <;> tauto

theorem mem_sortFiles (x : String × FileInput) (l : List (String × FileInput)) :
    x ∈ sortFiles l ↔ x ∈ l := by
  induction l with
  | nil => simp [sortFiles]
  | cons y rest ih =>
    simp [sortFiles, mem_insertFileSorted, ih]

theorem load_config_inv (home : Option String) (root : String) (main : Option FileInput)
    (ovs : List (String × FileInput)) (cfg : Config) (ws : List ConfigIssue)
    (h : load_config home root main ovs = .ok ⟨cfg, ws⟩) :
    ∃ st, processFiles home root (allFilesOf root main ovs) ⟨[], some root, [], []⟩ = .ok st
      ∧ st.errors = []
      ∧ cfg = ⟨root, st.defaultPromptPath, st.prompts⟩
      ∧ ws = st.warnings := by
  unfold load_config at h
  cases hpf : processFiles home root (allFilesOf root main ovs) ⟨[], some root, [], []⟩ with
  | ok st =>
    rw [hpf] at h
    dsimp only at h
    by_cases herr : st.errors = []
    · rw [if_pos herr] at h
      injection h with h2
      injection h2 with h3 h4
      exact ⟨st, rfl, herr, h3.symm, h4.symm⟩
    · rw [if_neg herr] at h
      cases h
  | error e =>
    rw [hpf] at h
    cases h

theorem builds_ok_of_no_errors (home : Option String) (root : String) :
    ∀ (files : List (String × FileInput)), errorsRef home root files = [] →
      ∀ d ∈ defsRef home root files,
        ∃ s, build_prompt_spec home root d.2.1 d.2.2 ⟨d.1⟩ = .ok s := by
  intro files
  induction files with
  | nil =>
    intro _ d hd
    simp [defsRef] at hd
  | cons f rest ih =>
    intro he d hd
    rw [errorsRef, List.append_eq_nil] at he
    obtain ⟨he1, he2⟩ := he
    rw [defsRef, List.mem_append] at hd
    cases hd with
    | inr hdr => exact ih he2 d hdr
    | inl hdf =>
      rcases f with ⟨path, input⟩
      cases input with
      | ioError => simp [fileDefs] at hdf
      | content parsed =>
        cases parsed with
        | error err => simp [fileDefs] at hdf
        | ok raw =>
          have hstep : promptBuildErrors home root ⟨path⟩ raw.prompt = [] ∧
              fileDefs home root path (.content (.ok raw)) =
                raw.prompt.map fun d => (path, d.1, d.2) := by
            cases hq : raw.promptPath with
            | some q =>
              cases hres : resolve_path home root q with
              | ok r =>
                constructor
                · simpa [fileErrors, hq, hres] using he1
                · simp [fileDefs, hq, hres]
              | error e =>
                exfalso
                simp [fileErrors, hq, hres] at he1
            | none =>
              constructor
              · simpa [fileErrors, hq] using he1
              · simp [fileDefs, hq]
          obtain ⟨hpbe, hfd⟩ := hstep
          rw [hfd] at hdf
          rw [List.mem_map] at hdf
          obtain ⟨⟨dn, dp⟩, hmem, hdeq⟩ := hdf
          rw [promptBuildErrors, List.filterMap_eq_nil] at hpbe
          have := hpbe ⟨dn, dp⟩ hmem
          cases hb : build_prompt_spec home root dn dp ⟨path⟩ with
          | ok s =>
            refine ⟨s, ?_⟩
            rw [← hdeq]
            exact hb
          | error i =>
            rw [hb] at this
            simp at this

theorem lastOkSpec_of_lastDef (home : Option String) (root : String) :
    ∀ (defs : List (String × String × RawPrompt)) (n : String),
      (∀ d ∈ defs, ∃ s, build_prompt_spec home root d.2.1 d.2.2 ⟨d.1⟩ = .ok s) →
      (lastDef defs n = none → lastOkSpec home root defs n = none) ∧
      (∀ d, lastDef defs n = some d → d.2.1 = n ∧
        ∃ spec, build_prompt_spec home root d.2.1 d.2.2 ⟨d.1⟩ = .ok spec ∧
          lastOkSpec home root defs n = some spec) := by
  intro defs
  induction defs with
  | nil =>
    intro n _
    exact ⟨fun _ => rfl, fun d hd => by simp [lastDef] at hd⟩
  | cons e rest ih =>
    intro n hok
    rcases e with ⟨file, m, p⟩
    have hokRest : ∀ d ∈ rest, ∃ s, build_prompt_spec home root d.2.1 d.2.2 ⟨d.1⟩ = .ok s :=
      fun d hd => hok d (by simp [hd])
    obtain ⟨ihnone, ihsome⟩ := ih n hokRest
    constructor
    · intro hnone
      rw [lastDef] at hnone
      rw [lastOkSpec]
      cases hr : lastDef rest n with
      | some r =>
        rw [hr] at hnone
        cases hnone
      | none =>
        rw [hr] at hnone
        rw [ihnone hr]
        by_cases hmn : m = n
        · rw [if_pos hmn] at hnone
          cases hnone
        · rw [if_neg hmn]
    · intro d hd
      rw [lastDef] at hd
      rw [lastOkSpec]
      cases hr : lastDef rest n with
      | some r =>
        rw [hr] at hd
        injection hd with hd2
        obtain ⟨hn, spec, hb, hlast⟩ := ihsome r hr
        subst hd2
        exact ⟨hn, spec, hb, by rw [hlast]⟩
      | none =>
        rw [hr] at hd
        rw [ihnone hr]
        by_cases hmn : m = n
        · rw [if_pos hmn] at hd
          injection hd with hd2
          subst hd2
          obtain ⟨spec, hb⟩ := hok (file, m, p) (by simp)
          refine ⟨hmn, spec, hb, ?_⟩
          rw [if_pos hmn, hb]
          rfl
        · rw [if_neg hmn] at hd
          cases hd

/-- C1: on a successful load the files are processed base first, then the
override files in lexical path order (the order embodied by `allFilesOf`);
the registry holds exactly one entry per distinct defined prompt name, each
entry is the spec built from the last definition of that name in this order
and carries that file as its source, and the warnings are exactly one
override warning per redefinition, naming the earlier definition's source
file. -/
theorem claim1_last_definition_wins (home : Option String) (root : String)
    (main : Option FileInput) (ovs : List (String × FileInput)) (cfg : Config)
    (ws : List ConfigIssue)
    (h : load_config home root main ovs = .ok ⟨cfg, ws⟩) :
    ((cfg.prompts.map Prod.fst).Nodup)
  ∧ (∀ n, (lookupName cfg.prompts n).isSome =
      (lastDef (defsRef home root (allFilesOf root main ovs)) n).isSome)
  ∧ (∀ n d, lastDef (defsRef home root (allFilesOf root main ovs)) n = some d →
      d.2.1 = n ∧ ∃ spec, build_prompt_spec home root d.2.1 d.2.2 ⟨d.1⟩ = .ok spec
        ∧ lookupName cfg.prompts n = some spec
        ∧ spec.metadata.source.path = d.1)
  ∧ ws = warnRef (defsRef home root (allFilesOf root main ovs)) [] := by
  obtain ⟨st, hpf, herr, hcfg, hws⟩ := load_config_inv home root main ovs cfg ws h
  have herrRef : errorsRef home root (allFilesOf root main ovs) = [] := by
    have := pf_errors home root (allFilesOf root main ovs) _ st hpf
    rw [herr] at this
    simpa using this.symm
  have hok := builds_ok_of_no_errors home root (allFilesOf root main ovs) herrRef
  have hlook : ∀ n, lookupName cfg.prompts n =
      lastOkSpec home root (defsRef home root (allFilesOf root main ovs)) n := by
    intro n
    have := pf_lookup home root (allFilesOf root main ovs) _ st hpf n
    rw [hcfg]
    dsimp only
    rw [this]
    cases lastOkSpec home root (defsRef home root (allFilesOf root main ovs)) n <;>
      simp [lookupName]
  refine ⟨?_, ?_, ?_, ?_⟩
  · have := pf_nodup home root (allFilesOf root main ovs) _ st hpf (by simp)
    rw [hcfg]
    exact this
  · intro n
    rw [hlook n]
    obtain ⟨hnone, hsome⟩ :=
      lastOkSpec_of_lastDef home root (defsRef home root (allFilesOf root main ovs)) n hok
    cases hd : lastDef (defsRef home root (allFilesOf root main ovs)) n with
    | none => rw [hnone hd]; rfl
    | some d =>
      obtain ⟨_, spec, _, hlast⟩ := hsome d hd
      rw [hlast]
      rfl
  · intro n d hd
    obtain ⟨_, hsome⟩ :=
      lastOkSpec_of_lastDef home root (defsRef home root (allFilesOf root main ovs)) n hok
    obtain ⟨hn, spec, hb, hlast⟩ := hsome d hd
    refine ⟨hn, spec, hb, ?_, ?_⟩
    · rw [hlook n, hlast]
    · have := build_ok_source home root d.2.1 d.2.2 ⟨d.1⟩ spec hb
      rw [this]
  · obtain ⟨hw, _⟩ := pf_warnings home root (allFilesOf root main ovs) _ st hpf hok
    rw [hws, hw]
    simp [srcMap]

/-- C1 witness: a base file defining prompt p and one override file
redefining it; the load succeeds, the registry holds the override's spec, and
exactly one override warning names the base file. -/
theorem claim1_last_definition_wins_witness :
    (([("p", PromptSpec.mk none (.sequence ["b.md"])
        (PromptMetadata.mk none [] [] none (PromptSource.mk "/r/conf.d/10.toml")))]
          : List (String × PromptSpec)).map Prod.fst).Nodup
  ∧ [(⟨.override, .overridesFrom "p" "/r/config.toml", "/r/conf.d/10.toml", none⟩ : ConfigIssue)] =
      warnRef (defsRef none "/r" (allFilesOf "/r"
        (some (.content (.ok ⟨none, [("p", ⟨none, some ["a.md"], none, none, [], [], none⟩)]⟩)))
        [("/r/conf.d/10.toml",
          .content (.ok ⟨none, [("p", ⟨none, some ["b.md"], none, none, [], [], none⟩)]⟩))])) [] := by
  have h := claim1_last_definition_wins none "/r"
    (some (.content (.ok ⟨none, [("p", ⟨none, some ["a.md"], none, none, [], [], none⟩)]⟩)))
    [("/r/conf.d/10.toml",
      .content (.ok ⟨none, [("p", ⟨none, some ["b.md"], none, none, [], [], none⟩)]⟩))]
    ⟨"/r", some "/r",
      [("p", ⟨none, .sequence ["b.md"], ⟨none, [], [], none, ⟨"/r/conf.d/10.toml"⟩⟩⟩)]⟩
    [⟨.override, .overridesFrom "p" "/r/config.toml", "/r/conf.d/10.toml", none⟩]
    (by decide)
  exact ⟨h.1, h.2.2.2⟩

/-- C2: when every file is readable (the fatal read-failure abort cannot
strike), the load fails with the Invalid result carrying every collected
error together with the collected warnings as soon as at least one error was
collected across all files, and no registry is returned; with zero errors it
succeeds, returning the registry and the warnings. -/
theorem claim2_all_or_nothing (home : Option String) (root : String)
    (main : Option FileInput) (ovs : List (String × FileInput))
    (hio1 : ∀ i, main = some i → i ≠ FileInput.ioError)
    (hio2 : ∀ f ∈ ovs, f.2 ≠ FileInput.ioError) :
    (errorsRef home root (allFilesOf root main ovs) = [] →
      ∃ out, load_config home root main ovs = .ok out)
  ∧ (errorsRef home root (allFilesOf root main ovs) ≠ [] →
      ∃ w, load_config home root main ovs =
        .error (.invalid (errorsRef home root (allFilesOf root main ovs)) w)) := by
  have hioAll : ∀ f ∈ allFilesOf root main ovs, f.2 ≠ FileInput.ioError := by
    intro f hf
    have hf2 : f ∈ (match main with
        | some input => [(root ++ "/config.toml", input)]
        | none => ([] : List (String × FileInput))) ∨ f ∈ sortFiles ovs := by
      rw [← List.mem_append]
      exact hf
    cases hf2 with
    | inr ho => exact hio2 f ((mem_sortFiles f ovs).mp ho)
    | inl hm =>
      cases main with
      | none => simp at hm
      | some i =>
        simp at hm
        subst hm
        exact hio1 i rfl
  obtain ⟨st, hpf⟩ := pf_ok_of_not_io home root (allFilesOf root main ovs)
    ⟨[], some root, [], []⟩ hioAll
  have herr : st.errors = errorsRef home root (allFilesOf root main ovs) := by
    have := pf_errors home root (allFilesOf root main ovs) _ st hpf
    simpa using this
  constructor
  · intro hE
    refine ⟨⟨⟨root, st.defaultPromptPath, st.prompts⟩, st.warnings⟩, ?_⟩
    unfold load_config
    rw [hpf]
    dsimp only
    rw [if_pos (by rw [herr, hE])]
  · intro hE
    refine ⟨st.warnings, ?_⟩
    unfold load_config
    rw [hpf]
    dsimp only
    rw [if_neg (by rw [herr]; exact hE), herr]

/-- C2 witness: a base file whose TOML text fails to parse; the load fails
with the Invalid bundle holding exactly that parse error. -/
theorem claim2_all_or_nothing_witness :
    ∃ w, load_config none "/r" (some (.content (.error "boom"))) [] =
      .error (.invalid (errorsRef none "/r"
        (allFilesOf "/r" (some (.content (.error "boom"))) [])) w) := by
  have h := claim2_all_or_nothing none "/r" (some (.content (.error "boom"))) []
    (by intro i hi; injection hi with h2; subst h2; decide)
    (by intro f hf; simp at hf)
  exact h.2 (by decide)

theorem errorsRef_ne_nil (home : Option String) (root : String) :
    ∀ (files : List (String × FileInput)) (path : String) (input : FileInput),
      (path, input) ∈ files → fileErrors home root path input ≠ [] →
      errorsRef home root files ≠ [] := by
  intro files
  induction files with
  | nil =>
    intro path input hmem _
    simp at hmem
  | cons f rest ih =>
    intro path input hmem hne he
    rw [errorsRef, List.append_eq_nil] at he
    rw [List.mem_cons] at hmem
    cases hmem with
    | inl heq =>
      rw [← heq] at he
      exact hne he.1
    | inr hr =>
      exact ih path input hr hne he.2

theorem load_fails_of_file_error (home : Option String) (root : String)
    (main : Option FileInput) (ovs : List (String × FileInput)) (path : String)
    (input : FileInput) (hmem : (path, input) ∈ allFilesOf root main ovs)
    (hne : fileErrors home root path input ≠ []) :
    ∀ out, load_config home root main ovs ≠ .ok out := by
  intro out h
  obtain ⟨st, hpf, herr, _, _⟩ :=
    load_config_inv home root main ovs out.config out.warnings h
  have herrRef : errorsRef home root (allFilesOf root main ovs) = [] := by
    have := pf_errors home root (allFilesOf root main ovs) _ st hpf
    rw [herr] at this
    simpa using this.symm
  exact errorsRef_ne_nil home root (allFilesOf root main ovs) path input hmem hne herrRef

theorem mem_allFilesOf (root : String) (main : Option FileInput)
    (ovs : List (String × FileInput)) (raw : RawFile)
    (hin : main = some (.content (.ok raw)) ∨
      ∃ p, (p, FileInput.content (.ok raw)) ∈ ovs) :
    ∃ path, (path, FileInput.content (.ok raw)) ∈ allFilesOf root main ovs := by
  cases hin with
  | inl hm =>
    refine ⟨root ++ "/config.toml", ?_⟩
    have : allFilesOf root main ovs =
        [(root ++ "/config.toml", FileInput.content (.ok raw))] ++ sortFiles ovs := by
      rw [hm]
      rfl
    rw [this]
    simp
  | inr ho =>
    obtain ⟨p, hp⟩ := ho
    refine ⟨p, ?_⟩
    have : allFilesOf root main ovs = (match main with
        | some input => [(root ++ "/config.toml", input)]
        | none => ([] : List (String × FileInput))) ++ sortFiles ovs := rfl
    rw [this, List.mem_append]
    exact Or.inr ((mem_sortFiles _ ovs).mpr hp)

theorem fileErrors_ne_nil_of_build_error (home : Option String) (root : String)
    (path : String) (raw : RawFile) (n : String) (rp : RawPrompt)
    (hmem : (n, rp) ∈ raw.prompt)
    (hb : ∃ issue, build_prompt_spec home root n rp ⟨path⟩ = .error issue) :
    fileErrors home root path (.content (.ok raw)) ≠ [] := by
  obtain ⟨issue, hb⟩ := hb
  have hpbe : issue ∈ promptBuildErrors home root ⟨path⟩ raw.prompt := by
    rw [promptBuildErrors, List.mem_filterMap]
    refine ⟨(n, rp), hmem, ?_⟩
    rw [hb]
  cases hq : raw.promptPath with
  | some q =>
    cases hres : resolve_path home root q with
    | ok r =>
      simp only [fileErrors, hq, hres]
      exact List.ne_nil_of_mem hpbe
    | error e =>
      simp [fileErrors, hq, hres]
  | none =>
    simp only [fileErrors, hq]
    exact List.ne_nil_of_mem hpbe

theorem load_fails_of_build_error (home : Option String) (root : String)
    (main : Option FileInput) (ovs : List (String × FileInput)) (raw : RawFile)
    (n : String) (rp : RawPrompt)
    (hin : main = some (.content (.ok raw)) ∨
      ∃ p, (p, FileInput.content (.ok raw)) ∈ ovs)
    (hmem : (n, rp) ∈ raw.prompt)
    (hb : ∀ src : PromptSource, ∃ issue, build_prompt_spec home root n rp src = .error issue) :
    ∀ out, load_config home root main ovs ≠ .ok out := by
  obtain ⟨path, hpmem⟩ := mem_allFilesOf root main ovs raw hin
  exact load_fails_of_file_error home root main ovs path _ hpmem
    (fileErrors_ne_nil_of_build_error home root path raw n rp hmem (hb ⟨path⟩))

/-- C3: a raw prompt declaring both a fragment list and a template, or
neither, fails its build with an invalid_prompt issue whatever its source
file; its name enters no registry because the whole load fails — it never
returns a registry at all. -/
theorem claim3_exclusive_kind (home : Option String) (root : String)
    (main : Option FileInput) (ovs : List (String × FileInput)) (raw : RawFile)
    (n : String) (rp : RawPrompt)
    (hin : main = some (.content (.ok raw)) ∨
      ∃ p, (p, FileInput.content (.ok raw)) ∈ ovs)
    (hmem : (n, rp) ∈ raw.prompt)
    (hbn : rp.prompts.isSome = rp.template.isSome) :
    (∀ src : PromptSource, ∃ issue, build_prompt_spec home root n rp src = .error issue
      ∧ issue.code = .invalidPrompt)
  ∧ (∀ out, load_config home root main ovs ≠ .ok out) := by
  have hbuild : ∀ src : PromptSource, ∃ issue,
      build_prompt_spec home root n rp src = .error issue
        ∧ issue.code = .invalidPrompt := by
    intro src
    unfold build_prompt_spec
    dsimp only
    cases hpp : rp.promptPath with
    | some q =>
      dsimp only
      cases hres : resolve_path home root q with
      | ok r =>
        dsimp only
        cases hps : rp.prompts with
        | some files =>
          cases hpt : rp.template with
          | some t => exact ⟨_, rfl, rfl⟩
          | none =>
            rw [hps, hpt] at hbn
            simp at hbn
        | none =>
          cases hpt : rp.template with
          | some t =>
            rw [hps, hpt] at hbn
            simp at hbn
          | none => exact ⟨_, rfl, rfl⟩
      | error e => exact ⟨_, rfl, rfl⟩
    | none =>
      dsimp only
      cases hps : rp.prompts with
      | some files =>
        cases hpt : rp.template with
        | some t => exact ⟨_, rfl, rfl⟩
        | none =>
          rw [hps, hpt] at hbn
          simp at hbn
      | none =>
        cases hpt : rp.template with
        | some t =>
          rw [hps, hpt] at hbn
          simp at hbn
        | none => exact ⟨_, rfl, rfl⟩
  refine ⟨hbuild, ?_⟩
  exact load_fails_of_build_error home root main ovs raw n rp hin hmem
    (fun src => (hbuild src).imp fun issue hi => hi.1)

/-- C3 witness: a prompt declaring both options; the build fails with an
invalid_prompt issue and the load returns no registry. -/
theorem claim3_exclusive_kind_witness :
    (∃ issue, build_prompt_spec none "/r" "bad"
        ⟨none, some ["a"], some "t", none, [], [], none⟩ ⟨"/r/config.toml"⟩ =
          .error issue ∧ issue.code = .invalidPrompt)
  ∧ (∀ out, load_config none "/r"
      (some (.content (.ok ⟨none, [("bad", ⟨none, some ["a"], some "t", none, [], [], none⟩)]⟩)))
      [] ≠ .ok out) := by
  have h := claim3_exclusive_kind none "/r"
    (some (.content (.ok ⟨none, [("bad", ⟨none, some ["a"], some "t", none, [], [], none⟩)]⟩)))
    [] ⟨none, [("bad", ⟨none, some ["a"], some "t", none, [], [], none⟩)]⟩
    "bad" ⟨none, some ["a"], some "t", none, [], [], none⟩
    (Or.inl rfl) (by decide) (by decide)
  exact ⟨h.1 ⟨"/r/config.toml"⟩, h.2⟩

/-- The name of the first variable repeating an earlier name, threading the
names seen so far; mirrors the duplicate check of `parse_prompt_vars`. -/
def firstDupGo (seen : List String) : List RawPromptVar → Option String
  | [] => none
  | v :: rest => if v.name ∈ seen then some v.name else firstDupGo (v.name :: seen) rest

/-- The first duplicated variable name of a declaration list. -/
def firstDup (vars : List RawPromptVar) : Option String :=
  firstDupGo [] vars

theorem parse_vars_first_dup (promptName : String) (src : PromptSource) (dn : String) :
    ∀ (vars : List RawPromptVar) (seen : List String),
      (∀ v ∈ vars, (parse_var_kind (v.kind.getD "string")).isSome = true) →
      firstDupGo seen vars = some dn →
      parse_prompt_vars_go promptName src seen vars =
        .error ⟨.duplicateVar, .varDeclaredTwice dn, src.path, none⟩ := by
  intro vars
  induction vars with
  | nil =>
    intro seen _ hdup
    simp [firstDupGo] at hdup
  | cons v rest ih =>
    intro seen hkinds hdup
    rw [firstDupGo] at hdup
    by_cases hseen : v.name ∈ seen
    · rw [if_pos hseen] at hdup
      injection hdup with hdn
      rw [parse_prompt_vars_go, if_pos hseen, hdn]
    · rw [if_neg hseen] at hdup
      rw [parse_prompt_vars_go, if_neg hseen]
      have hk := hkinds v (by simp)
      cases hkv : parse_var_kind (v.kind.getD "string") with
      | none =>
        rw [hkv] at hk
        simp at hk
      | some k =>
        rw [ih (v.name :: seen) (fun w hw => hkinds w (by simp [hw])) hdup]
        rfl

/-- C8 counterexample: a prompt declaring the variable "seed" twice and also
declaring both a fragment list and a template; the kind validation fails
first, so the load collects one invalid_prompt error and zero duplicate_var
errors. -/
theorem claim8_counterexample :
    load_config none "/r"
      (some (.content (.ok ⟨none, [("p",
        ⟨none, some ["a"], some "t", none, [],
          [⟨"seed", false, none, none⟩, ⟨"seed", true, none, none⟩], none⟩)]⟩)))
      [] =
      .error (.invalid [⟨.invalidPrompt, .exclusiveOptions, "/r/config.toml", none⟩] [])
  ∧ ([(⟨.invalidPrompt, .exclusiveOptions, "/r/config.toml", none⟩ : ConfigIssue)].filter
      (fun i => decide (i.code = ConfigIssueCode.duplicateVar))).length = 0 := by
  constructor
  · decide
  · decide

/-- C8 (amended): for a prompt whose path override is absent or resolves
successfully, whose kind passes validation (exactly one of fragments and
template, non-empty fragments) and whose variables all carry recognized
types, declaring the same variable name twice makes the build fail with
exactly one duplicate_var issue naming the first duplicated name (variable
validation stops there), and the load as a whole fails; a prompt failing its
kind validation first reports that single issue instead, with no
duplicate_var error, as in the counterexample. -/
theorem claim8_duplicate_var (home : Option String) (root : String)
    (main : Option FileInput) (ovs : List (String × FileInput)) (raw : RawFile)
    (n : String) (rp : RawPrompt) (dn : String)
    (hin : main = some (.content (.ok raw)) ∨
      ∃ p, (p, FileInput.content (.ok raw)) ∈ ovs)
    (hmem : (n, rp) ∈ raw.prompt)
    (hpp : rp.promptPath = none ∨
      ∃ q r, rp.promptPath = some q ∧ resolve_path home root q = .ok r)
    (hkind : (∃ fs, rp.prompts = some fs ∧ fs ≠ [] ∧ rp.template = none) ∨
      (rp.prompts = none ∧ ∃ t, rp.template = some t))
    (hkinds : ∀ v ∈ rp.vars, (parse_var_kind (v.kind.getD "string")).isSome = true)
    (hdup : firstDup rp.vars = some dn) :
    (∀ src : PromptSource, build_prompt_spec home root n rp src =
      .error ⟨.duplicateVar, .varDeclaredTwice dn, src.path, none⟩)
  ∧ (∀ out, load_config home root main ovs ≠ .ok out) := by
  have hbuild : ∀ src : PromptSource, build_prompt_spec home root n rp src =
      .error ⟨.duplicateVar, .varDeclaredTwice dn, src.path, none⟩ := by
    intro src
    have hpv : parse_prompt_vars n rp.vars src =
        .error ⟨.duplicateVar, .varDeclaredTwice dn, src.path, none⟩ :=
      parse_vars_first_dup n src dn rp.vars [] hkinds hdup
    unfold build_prompt_spec
    dsimp only
    cases hpp with
    | inl hnone =>
      rw [hnone]
      dsimp only
      cases hkind with
      | inl hseq =>
        obtain ⟨fs, hps, hfs, hpt⟩ := hseq
        rw [hps, hpt]
        dsimp only
        rw [if_neg hfs]
        rw [show parse_prompt_vars n rp.vars src = _ from hpv]
        rfl
      | inr htpl =>
        obtain ⟨hps, t, hpt⟩ := htpl
        rw [hps, hpt]
        dsimp only
        rw [show parse_prompt_vars n rp.vars src = _ from hpv]
        rfl
    | inr hsome =>
      obtain ⟨q, r, hq, hres⟩ := hsome
      rw [hq]
      dsimp only
      rw [hres]
      dsimp only
      cases hkind with
      | inl hseq =>
        obtain ⟨fs, hps, hfs, hpt⟩ := hseq
        rw [hps, hpt]
        dsimp only
        rw [if_neg hfs]
        rw [show parse_prompt_vars n rp.vars src = _ from hpv]
        rfl
      | inr htpl =>
        obtain ⟨hps, t, hpt⟩ := htpl
        rw [hps, hpt]
        dsimp only
        rw [show parse_prompt_vars n rp.vars src = _ from hpv]
        rfl
  refine ⟨hbuild, ?_⟩
  exact load_fails_of_build_error home root main ovs raw n rp hin hmem
    (fun src => ⟨_, hbuild src⟩)

/-- C8 witness: two variables both named seed on an otherwise valid prompt
whose path override "/lib" resolves successfully; the build yields the
single duplicate_var issue and the load fails. -/
theorem claim8_duplicate_var_witness :
    build_prompt_spec none "/r" "p"
      ⟨some "/lib", some ["a"], none, none, [],
        [⟨"seed", false, none, none⟩, ⟨"seed", true, none, none⟩], none⟩
      ⟨"/r/config.toml"⟩ =
      .error ⟨.duplicateVar, .varDeclaredTwice "seed", "/r/config.toml", none⟩
  ∧ (∀ out, load_config none "/r"
      (some (.content (.ok ⟨none, [("p",
        ⟨some "/lib", some ["a"], none, none, [],
          [⟨"seed", false, none, none⟩, ⟨"seed", true, none, none⟩], none⟩)]⟩)))
      [] ≠ .ok out) := by
  have h := claim8_duplicate_var none "/r"
    (some (.content (.ok ⟨none, [("p",
      ⟨some "/lib", some ["a"], none, none, [],
        [⟨"seed", false, none, none⟩, ⟨"seed", true, none, none⟩], none⟩)]⟩)))
    [] ⟨none, [("p",
      ⟨some "/lib", some ["a"], none, none, [],
        [⟨"seed", false, none, none⟩, ⟨"seed", true, none, none⟩], none⟩)]⟩
    "p" ⟨some "/lib", some ["a"], none, none, [],
      [⟨"seed", false, none, none⟩, ⟨"seed", true, none, none⟩], none⟩
    "seed" (Or.inl rfl) (by decide)
    (Or.inr ⟨"/lib", "/lib", rfl, by decide⟩)
    (Or.inl ⟨["a"], rfl, by decide, rfl⟩) (by decide) (by decide)
  exact ⟨h.1 ⟨"/r/config.toml"⟩, h.2⟩

theorem renderSequenceGo_error_shape (fs : String → Option String) (args : List String)
    (name base : String) :
    ∀ (files : List String) (rendered : String) (e : RenderError),
      renderSequenceGo fs args name base files rendered = .error e →
      (∃ f nm, e = .fragmentRead f nm) ∨ (∃ se, e = .substitution se) := by
  intro files
  induction files with
  | nil =>
    intro rendered e h
    simp [renderSequenceGo] at h
  | cons f rest ih =>
    intro rendered e h
    simp only [renderSequenceGo] at h
    cases hr : fs (joinPath base f) with
    | none =>
      rw [hr] at h
      injection h with h2
      exact Or.inl ⟨f, name, h2.symm⟩
    | some content =>
      rw [hr] at h
      dsimp only at h
      cases hs : substitute_placeholders content args with
      | error se =>
        rw [hs] at h
        injection h with h2
        exact Or.inr ⟨se, h2.symm⟩
      | ok s =>
        rw [hs] at h
        exact ih _ e h

/-- C10 counterexample: a base file successfully setting prompt_path "sub"
replaces the default; the prompt p has no per-prompt override, yet its paths
resolve relative to /r/sub rather than the configuration root /r. -/
theorem claim10_counterexample :
    load_config none "/r"
      (some (.content (.ok ⟨some "sub", [("p", ⟨none, some ["f"], none, none, [], [], none⟩)]⟩)))
      [] =
      .ok ⟨⟨"/r", some "/r/sub",
        [("p", ⟨none, .sequence ["f"], ⟨none, [], [], none, ⟨"/r/config.toml"⟩⟩⟩)]⟩, []⟩
  ∧ resolve_prompt_path
      ⟨"/r", some "/r/sub",
        [("p", ⟨none, .sequence ["f"], ⟨none, [], [], none, ⟨"/r/config.toml"⟩⟩⟩)]⟩
      ⟨none, .sequence ["f"], ⟨none, [], [], none, ⟨"/r/config.toml"⟩⟩⟩ = some "/r/sub"
  ∧ some "/r/sub" ≠ some ("/r" : String) := by
  refine ⟨by decide, by decide, by decide⟩

/-- C10 (amended): on every successful load the default prompt path is
present — initialized to the configuration root and only ever replaced by a
successfully resolved path — so resolve_prompt_path never returns none and
the missing-prompt_path failure branches of render_prompt are unreachable;
prompts without a per-prompt override resolve against the current default,
which is still the configuration root whenever no processed file declared a
prompt_path. -/
theorem claim10_default_path_present (home : Option String) (root : String)
    (main : Option FileInput) (ovs : List (String × FileInput)) (cfg : Config)
    (ws : List ConfigIssue)
    (h : load_config home root main ovs = .ok ⟨cfg, ws⟩) :
    cfg.defaultPromptPath.isSome = true
  ∧ (∀ spec : PromptSpec, resolve_prompt_path cfg spec ≠ none)
  ∧ (∀ (tmpl : TemplateRenderer) (fs : String → Option String) (w2 : List ConfigIssue)
      (name : String) (args : List String) (data : Option StructuredData) (nm : String),
      render_prompt tmpl fs ⟨cfg, w2⟩ name args data ≠ .error (.missingPromptPath nm))
  ∧ ((∀ f ∈ allFilesOf root main ovs, ∀ raw, f.2 = FileInput.content (.ok raw) →
      raw.promptPath = none) → cfg.defaultPromptPath = some root)
  ∧ (∀ spec : PromptSpec, spec.promptPathOverride = none →
      resolve_prompt_path cfg spec = cfg.defaultPromptPath) := by
  obtain ⟨st, hpf, herr, hcfg, hws⟩ := load_config_inv home root main ovs cfg ws h
  have hsome : cfg.defaultPromptPath.isSome = true := by
    rw [hcfg]
    exact pf_default_isSome home root (allFilesOf root main ovs) _ st hpf rfl
  have hres : ∀ spec : PromptSpec, resolve_prompt_path cfg spec ≠ none := by
    intro spec
    rw [resolve_prompt_path]
    cases hov : spec.promptPathOverride with
    | some p => simp
    | none =>
      cases hd : cfg.defaultPromptPath with
      | some d => simp
      | none =>
        rw [hd] at hsome
        simp at hsome
  refine ⟨hsome, hres, ?_, ?_, ?_⟩
  · intro tmpl fs w2 name args data nm hren
    rw [render_prompt] at hren
    cases hl : lookupName cfg.prompts name with
    | none =>
      rw [hl] at hren
      cases hren
    | some spec =>
      rw [hl] at hren
      dsimp only at hren
      cases hk : spec.kind with
      | sequence files =>
        rw [hk] at hren
        cases data with
        | some d => cases hren
        | none =>
          dsimp only at hren
          cases hrp : resolve_prompt_path cfg spec with
          | none => exact hres spec hrp
          | some base =>
            rw [hrp] at hren
            dsimp only at hren
            rcases renderSequenceGo_error_shape fs args name base files "" _ hren
              with h1 | h2
            · obtain ⟨f, nm2, heq⟩ := h1
              cases heq
            · obtain ⟨se, heq⟩ := h2
              cases heq
      | template t =>
        rw [hk] at hren
        cases data with
        | none => cases hren
        | some d =>
          dsimp only at hren
          cases hrp : resolve_prompt_path cfg spec with
          | none => exact hres spec hrp
          | some base =>
            rw [hrp] at hren
            dsimp only at hren
            cases ht : tmpl name base t d args with
            | ok out => rw [ht] at hren; cases hren
            | error e => rw [ht] at hren; cases hren
  · intro hnd
    rw [hcfg]
    dsimp only
    exact pf_default_no_decl home root (allFilesOf root main ovs) _ st hpf hnd
  · intro spec hov
    rw [resolve_prompt_path, hov]

/-- C10 witness: a minimal successful load, with no file declaring a
prompt_path; the default is present and equals the configuration root. -/
theorem claim10_default_path_present_witness :
    ((⟨"/r", some "/r", []⟩ : Config).defaultPromptPath.isSome = true)
  ∧ (⟨"/r", some "/r", []⟩ : Config).defaultPromptPath = some "/r" := by
  have h := claim10_default_path_present none "/r" none [] ⟨"/r", some "/r", []⟩ []
    (by decide)
  refine ⟨h.1, h.2.2.2.1 ?_⟩
  intro f hf
  simp [allFilesOf, sortFiles] at hf

end PA
